import Mathlib

/-!
# easy_get_coin: the stake-history read path

A shallow embedding of `handlers/stakeing.go` (`StakeHandler.UserStakeHistory`,
`StakeHandler.UserTotalStake` and `StakeHandler.Stake`) together with the collaborators they
drive: the staking service of `services/staking.go`, the record types of
`storage/Storage.go`, the shared TTL cache (`utils.Cache`) and the comparator
`utils.ComparePtrFieldsDesc`.

Conventions.
* Go `int` is 64-bit two's complement: products are reduced with `wrapInt`.
* `time.Time` and `time.Duration` are natural numbers of nanoseconds.
* A handler run is a pure function of the collaborator behaviour, the cache, the clock
  readings taken by the cache operations and the request; it returns the response written
  with `ctx.JSON` (or none when the goroutine panics), the cache afterwards and the list of
  collaborator calls in program order.
-/

namespace EasyGetCoin

/-! ## Records (`storage/Storage.go`) -/

/-- The struct `storage.GameHistoryGameSession`; `*big.Int` fields hold `uint256` values. -/
structure GameHistoryGameSession where
  Gid : Nat
  Gtid : String
  Uid : String
  Data : String
  Time : Nat
deriving DecidableEq, Repr

/-- The struct `storage.GameHistoryPayment`: `Sender` is the 20-byte address read as a
number, `Amount` and `Time` are the `uint256` values behind the `*big.Int` pointers. -/
structure GameHistoryPayment where
  Sender : Nat
  Amount : Nat
  Time : Nat
deriving DecidableEq, Repr

/-- A value of Go type `interface{}` as it occurs in the cache and in the `Page` field of a
reply: a slice of payments, a slice of game sessions, or a value of some other dynamic type
(identified by its type name). -/
inductive Dyn where
  | payments (ps : List GameHistoryPayment)
  | sessions (ss : List GameHistoryGameSession)
  | other (typeName : String)
deriving DecidableEq, Repr

/-! ## Machine integers and slices -/

/-- Reduction of an integer to Go's 64-bit `int` (two's complement wrap-around). -/
def wrapInt (x : Int) : Int := (x + 2 ^ 63) % 2 ^ 64 - 2 ^ 63

/-- The slice expression `s[lo:hi]` for `hi ≤ len(s)`: the elements at positions
`lo, …, hi-1`; a run-time panic (none) unless `0 ≤ lo ≤ hi ≤ len(s)`. -/
def sliceExpr {α : Type} (s : List α) (lo hi : Int) : Option (List α) :=
  if 0 ≤ lo ∧ lo ≤ hi ∧ hi ≤ (s.length : Int) then
    some ((s.drop lo.toNat).take (hi.toNat - lo.toNat))
  else none

/-! ## Sorting (`sort.SliceStable` with `utils.ComparePtrFieldsDesc`) -/

/-- Modelled from the spec: `utils.ComparePtrFieldsDesc` is not among the sources. By §4.2
the ordering key is `time`, descending, and the comparator is a strict weak ordering with no
secondary key: `a` goes before `b` exactly when `a.Time > b.Time`. -/
def ComparePtrFieldsDesc (a b : GameHistoryPayment) : Bool := decide (b.Time < a.Time)

/-- The inner loop of the library's insertion sort,
`for j := i; j > a && less(j, j-1); j-- { swap(j, j-1) }`:
the new element `x` moves left past every neighbour it is `less` than. The prefix already
sorted is passed right-to-left (its head is the element just left of `x`). -/
def sink {α : Type} (less : α → α → Bool) (x : α) : List α → List α
  | [] => [x]
  | y :: ys => if less x y then y :: sink less x ys else x :: y :: ys

/-- The standard-library `sort.SliceStable(s, less)`: a stable sort by `less`, here in the
form of its insertion sort (which is the whole algorithm up to 20 elements; longer slices
are insertion-sorted in blocks that are then merged stably, with the same result). -/
def SliceStable {α : Type} (less : α → α → Bool) (s : List α) : List α :=
  (s.foldl (fun acc x => sink less x acc) []).reverse

/-- The sort of lines 159–161: `sort.SliceStable(res, less)` with
`less(i, j) = utils.ComparePtrFieldsDesc(&res[i], &res[j])`. -/
def sortHistory (res : List GameHistoryPayment) : List GameHistoryPayment :=
  SliceStable ComparePtrFieldsDesc res

/-! ## The TTL cache (`utils.Cache`) -/

/-- Modelled from the spec: the entry type of `utils.Cache` (§3 CacheEntry), an opaque
payload with an absolute expiry time. -/
structure CacheEntry where
  value : Dyn
  expiresAt : Nat
deriving DecidableEq, Repr

/-- Modelled from the spec: the state of `utils.Cache` (§3 TTLCache), a mapping from string
keys to entries. -/
abbrev Cache := String → Option CacheEntry

/-- Modelled from the spec: the cache made by `utils.NewCache()`, with no entries. -/
def NewCache : Cache := fun _ => none

/-- Modelled from the spec: physical removal of the entry under `key`. -/
def Cache.remove (c : Cache) (key : String) : Cache :=
  fun k => if k = key then none else c k

/-- Modelled from the spec: `Cache.Set` of `utils.Cache` (§4.1): store `value` under `key`
with `expiresAt = now + ttl`, unconditionally overwriting any prior entry. -/
def Cache.Set (c : Cache) (now : Nat) (key : String) (value : Dyn) (ttl : Nat) : Cache :=
  fun k => if k = key then some ⟨value, now + ttl⟩ else c k

/-- Modelled from the spec: `Cache.Get` of `utils.Cache` (§4.1): `found = false` if the key
is absent or the stored entry has expired, which is then removed (§3: an expired entry is
removed lazily by the next operation touching its key); otherwise the stored value with
`found = true`. The third component is the cache afterwards. An entry has expired when
`expiresAt ≤ now`: the invariant of §3 (a key with `expiresAt <= now` is absent for every
reader) and the expiry property of §8 (a value at `now < expiresAt`, a miss at
`now ≥ expiresAt`) fix the boundary, and the `now > expiresAt` of §4.1 is covered by it. -/
def Cache.Get (c : Cache) (now : Nat) (key : String) : Option Dyn × Bool × Cache :=
  match c key with
  | none => (none, false, c)
  | some e => if e.expiresAt ≤ now then (none, false, c.remove key) else (some e.value, true, c)

/-- The logical content of the cache under `key` at time `now`: what a `Get` would report. -/
def Cache.view (c : Cache) (now : Nat) (key : String) : Option Dyn :=
  (c.Get now key).1

/-! ## The staking service (`services/staking.go`) -/

/-- The interface `services.StackingContract` as the handler sees it: each method is a
function of the address giving an error message or a value. -/
structure StackingContract where
  UserTotal : String → Except String Nat
  UserStakeHistory : String → Except String (List GameHistoryPayment)

/-! ## Replies -/

/-- The result kinds of the serving interface (spec §6). -/
inductive ResultKind where
  | Success
  | NoData
  | PageOutOfRange
  | InvalidParameter
  | UpstreamFailure
deriving DecidableEq, Repr

/-- A JSON object of Go type `map[string]interface{}`: its fields, values rendered as
text. -/
abbrev JsonMap := List (String × String)

/-- The JSON bodies the handlers write: `GameHistoryResFail{Status, Message}`,
`GameHistoryResOk{Status, Page}`, the bare `*big.Int` total of `UserTotalStake`, and the
map (possibly nil) of `Stake`. -/
inductive Body where
  | fail (Status Message : String)
  | ok (Status : String) (Page : Dyn)
  | total (value : Nat)
  | link (fields : Option JsonMap)
deriving DecidableEq, Repr

/-- One `ctx.JSON(code, body)`, tagged with the result kind its return site stands for. -/
structure Response where
  kind : ResultKind
  code : Nat
  body : Body
deriving DecidableEq, Repr

/-- The constant `http.StatusOK`. -/
def StatusOK : Nat := 200

/-- The constant `http.StatusBadRequest`. -/
def StatusBadRequest : Nat := 400

/-- A call a handler makes on a collaborator: `Cache.Get`, the ledger query
`services.UserStakeHistory`, `Cache.Set`, and the ledger query `services.UserTotal`. -/
inductive Call where
  | cacheGet (key : String)
  | upstream (address : String)
  | cacheSet (key : String) (value : Dyn) (ttl : Nat)
  | upstreamTotal (address : String)
deriving DecidableEq, Repr

/-- Whether a call is a ledger query for the stake history. -/
def Call.isUpstream : Call → Bool
  | .upstream _ => true
  | _ => false

/-- Whether a call is a `Cache.Set`. -/
def Call.isSet : Call → Bool
  | .cacheSet _ _ _ => true
  | _ => false

/-- Whether a call is a cache operation (`Get` or `Set`). -/
def Call.isCache : Call → Bool
  | .cacheGet _ => true
  | .cacheSet _ _ _ => true
  | _ => false

/-- The clock readings (`time.Now()`, nanoseconds) of the three cache operations of one
run: the `Get` of line 147, the `Set` of line 163 and the `Get` of line 166. -/
structure Clock where
  atCheck : Nat
  atSet : Nat
  atRead : Nat
deriving DecidableEq, Repr

/-- What one handler run leaves behind: the response written (none: the run panicked before
writing one), the cache afterwards, and the collaborator calls in order. -/
structure Outcome where
  result : Option Response
  cache : Cache
  calls : List Call

/-- The constant `time.Minute`, in nanoseconds. -/
def Minute : Nat := 60 * 1000000000

/-- The time-to-live of line 163, `6*time.Minute`. -/
def historyTTL : Nat := 6 * Minute

/-! ## The handler (`handlers/stakeing.go`) -/

/-- Lines 169–195: the reply for the sequence `res` read back from the cache. -/
def pageReply (res : List GameHistoryPayment) (page pageSize : Int) : Option Response :=
  if res.length = 0 then
    some ⟨.NoData, StatusBadRequest, .ok "failed no game data for provided gid" (.sessions [])⟩
  else
    let startIndex := wrapInt ((page - 1) * pageSize)
    let endIndex := wrapInt (page * pageSize)
    if startIndex ≥ (res.length : Int) then
      some ⟨.PageOutOfRange, StatusBadRequest, .ok "failed no new page" (.sessions [])⟩
    else
      let endIndex := if endIndex > (res.length : Int) then (res.length : Int) else endIndex
      match sliceExpr res startIndex endIndex with
      | none => none
      | some window => some ⟨.Success, StatusOK, .ok "success" (.payments window)⟩

/-- Lines 166–195: the second `Cache.Get`, the type assertion
`cachedData.([]storage.GameHistoryPayment)` (a panic on nil or on another dynamic type) and
the reply. `calls` are the calls made so far. -/
def readAndReply (cache : Cache) (now : Nat) (address : String) (page pageSize : Int)
    (calls : List Call) : Outcome :=
  let got := cache.Get now address
  let calls := calls ++ [Call.cacheGet address]
  match got.1 with
  | some (.payments res) => ⟨pageReply res page pageSize, got.2.2, calls⟩
  | _ => ⟨none, got.2.2, calls⟩

/-- Lines 147–164: the first `Cache.Get` and, on a miss, the ledger query, the sort and the
`Cache.Set`. The result is the error message of a failed query (none otherwise), the cache
afterwards and the calls made. -/
def populate (services : StackingContract) (cache : Cache) (clk : Clock) (address : String) :
    Option String × Cache × List Call :=
  let first := cache.Get clk.atCheck address
  if first.2.1 then
    (none, first.2.2, [Call.cacheGet address])
  else
    match services.UserStakeHistory address with
    | .error err => (some err, first.2.2, [Call.cacheGet address, Call.upstream address])
    | .ok res =>
      let res := sortHistory res
      (none, first.2.2.Set clk.atSet address (.payments res) historyTTL,
        [Call.cacheGet address, Call.upstream address,
          Call.cacheSet address (.payments res) historyTTL])

/-- The handler `StakeHandler.UserStakeHistory` (lines 121–196). `page` and `pageSize` are
the results of `strconv.Atoi` on the query values (with defaults "1" and "20"); none stands
for a conversion error. -/
def UserStakeHistory (services : StackingContract) (cache : Cache) (clk : Clock)
    (address : String) (page pageSize : Option Int) : Outcome :=
  match page with
  | none => ⟨some ⟨.InvalidParameter, StatusBadRequest, .fail "fail" "Invalid page number"⟩,
      cache, []⟩
  | some page =>
    if page < 1 then
      ⟨some ⟨.InvalidParameter, StatusBadRequest, .fail "fail" "Invalid page number"⟩,
        cache, []⟩
    else
    match pageSize with
    | none => ⟨some ⟨.InvalidParameter, StatusBadRequest, .fail "fail" "Invalid page size"⟩,
        cache, []⟩
    | some pageSize =>
      if pageSize < 1 then
        ⟨some ⟨.InvalidParameter, StatusBadRequest, .fail "fail" "Invalid page size"⟩,
          cache, []⟩
      else
      match populate services cache clk address with
      | (some err, cache, calls) =>
        ⟨some ⟨.UpstreamFailure, StatusBadRequest, .fail "fail" err⟩, cache, calls⟩
      | (none, cache, calls) => readAndReply cache clk.atRead address page pageSize calls

/-- The handler `StakeHandler.UserTotalStake` (lines 63–78): one ledger query; its error is
written as a failure, its total is written bare with status 200. The cache field of the
handler is not used. -/
def UserTotalStake (services : StackingContract) (cache : Cache) (address : String) :
    Outcome :=
  match services.UserTotal address with
  | .error err =>
    ⟨some ⟨.UpstreamFailure, StatusBadRequest, .fail "fail" err⟩, cache,
      [Call.upstreamTotal address]⟩
  | .ok res => ⟨some ⟨.Success, StatusOK, .total res⟩, cache, [Call.upstreamTotal address]⟩

/-! ## The service implementation (`services/staking.go`) -/

/-- The read side of the contract binding `storage.GameHistory`: the calls `userTotal` and
`userStakeHistory` of the ledger, keyed by the 20-byte address read as a number. -/
structure GameHistory where
  UserTotal : Nat → Except String Nat
  UserStakeHistory : Nat → Except String (List GameHistoryPayment)

/-- The method `stakeHistory.UserTotal` (lines 52–56): convert the address text with the
library function `common.HexToAddress` (a parameter here) and ask the contract. -/
def stakeHistory.UserTotal (HexToAddress : String → Nat) (contract : GameHistory)
    (address : String) : Except String Nat :=
  contract.UserTotal (HexToAddress address)

/-- The method `stakeHistory.UserStakeHistory` (lines 67–71). -/
def stakeHistory.UserStakeHistory (HexToAddress : String → Nat) (contract : GameHistory)
    (address : String) : Except String (List GameHistoryPayment) :=
  contract.UserStakeHistory (HexToAddress address)

/-- The constructor `NewStakingHistory`: the service backed by a contract binding. -/
def NewStakingHistory (HexToAddress : String → Nat) (contract : GameHistory) :
    StackingContract :=
  ⟨stakeHistory.UserTotal HexToAddress contract,
    stakeHistory.UserStakeHistory HexToAddress contract⟩

/-- The payment client `cryptapi.Crypt` (an external library) as the service uses it: a
client state `σ` and the two methods called, each returning its Go results and the state
afterwards. `GenPaymentAdress` returns an address and an error (none: nil), `GenQR` a map
(none: nil) and an error. -/
structure Crypt (σ : Type) where
  GenPaymentAdress : σ → (String × Option String) × σ
  GenQR : String → String → σ → (Option JsonMap × Option String) × σ

/-- A call the service makes on the payment client. -/
inductive ApiCall where
  | GenPaymentAdress
  | GenQR (first second : String)
deriving DecidableEq, Repr

/-- The method `stakeHistory.GeneratePaymentLink` (lines 73–80): generate a payment address
and, unless that fails, return what `GenQR("", "250")` returns. The result is the returned
map and error, the client state afterwards and the client calls made. -/
def stakeHistory.GeneratePaymentLink {σ : Type} (cryptApi : Crypt σ) (value : String)
    (s : σ) : (Option JsonMap × Option String) × σ × List ApiCall :=
  let generated := cryptApi.GenPaymentAdress s
  match generated.1.2 with
  | some err => ((none, some err), generated.2, [ApiCall.GenPaymentAdress])
  | none =>
    let paymentAddress := cryptApi.GenQR "" "250" generated.2
    (paymentAddress.1, paymentAddress.2, [ApiCall.GenPaymentAdress, ApiCall.GenQR "" "250"])

/-- The handler `StakeHandler.Stake` (lines 91–106) over the service of `main`: the error of
`GeneratePaymentLink` is written as a failure, its map with status 200. -/
def Stake {σ : Type} (cryptApi : Crypt σ) (s : σ) (value : String) :
    Response × σ × List ApiCall :=
  let generated := stakeHistory.GeneratePaymentLink cryptApi value s
  match generated.1.2 with
  | some err =>
    (⟨.UpstreamFailure, StatusBadRequest, .fail "fail" err⟩, generated.2.1, generated.2.2)
  | none => (⟨.Success, StatusOK, .link generated.1.1⟩, generated.2.1, generated.2.2)

/-! ## The cache as the stake handlers write it -/

/-- The caches the stake handlers make of the empty cache of `init` (main.go line 113) when
nothing else writes it: what runs of `UserStakeHistory` and `UserTotalStake` leave. -/
inductive Reachable : Cache → Prop where
  | init : Reachable NewCache
  | history (services : StackingContract) (cache : Cache) (clk : Clock) (address : String)
      (page pageSize : Option Int) :
      Reachable cache →
      Reachable (UserStakeHistory services cache clk address page pageSize).cache
  | total (services : StackingContract) (cache : Cache) (address : String) :
      Reachable cache → Reachable (UserTotalStake services cache address).cache

/-- Every entry of the cache holds a `[]storage.GameHistoryPayment`. -/
def OnlyPayments (cache : Cache) : Prop :=
  ∀ k e, cache k = some e → ∃ ps, e.value = Dyn.payments ps

/-! ## Sample data -/

/-- A wallet address used in the worked examples. -/
def sampleAddress : String := "0x01"

/-- The three records of the stability example of spec §8: `a` (time 5), `b` (time 10) and
`c` (time 5), told apart by their senders 1, 2 and 3. -/
def sampleHistory : List GameHistoryPayment := [⟨1, 10, 5⟩, ⟨2, 20, 10⟩, ⟨3, 30, 5⟩]

/-- A staking service whose ledger query gives the same answer for every address. -/
def sampleService (answer : Except String (List GameHistoryPayment)) : StackingContract :=
  ⟨fun _ => .ok 0, fun _ => answer⟩

/-- A staking service whose total query gives the same answer for every address. -/
def sampleTotalService (answer : Except String Nat) : StackingContract :=
  ⟨fun _ => answer, fun _ => .ok []⟩

/-- A payment client without state whose address generation succeeds and whose `GenQR`
answers with its two arguments. -/
def sampleCrypt : Crypt Unit :=
  ⟨fun s => (("0xpay", none), s),
    fun a b s => ((some [("value", a), ("size", b)], none), s)⟩

/-- Clock readings of a run whose two `Get`s lie on either side of the expiry of an entry
stored at time zero: one nanosecond before it and at it. -/
def expiryClock : Clock := ⟨359999999999, 359999999999, 360000000000⟩

/-- A cache in which another holder of the shared cache (`main` hands it to the game-history
handler as well) has stored a game-session sequence under the key "7" at time zero. -/
def sessionCache : Cache :=
  NewCache.Set 0 "7" (.sessions [⟨7, "race", "7", "lap", 1⟩]) historyTTL

/-- Clock readings of a later run, one second after time zero. -/
def laterClock : Clock := ⟨1000000000, 1000001000, 1000002000⟩

/-- Clock readings of a run that starts one microsecond after time zero. -/
def sampleClock : Clock := ⟨1000, 2000, 3000⟩

/-- A cache that was given the sequence `l` for the sample address at time zero. -/
def sampleCache (l : List GameHistoryPayment) : Cache :=
  NewCache.Set 0 sampleAddress (.payments l) historyTTL

/-! ## Machine arithmetic -/

/-- An integer inside the `int` range is its own reduction. -/
theorem wrapInt_of_range (x : Int) (hlo : -(2 ^ 63) ≤ x) (hhi : x < 2 ^ 63) : wrapInt x = x := by
  unfold wrapInt
  norm_num at hlo hhi ⊢
  omega

/-- A page whose first index lies inside a slice of at most `2 ^ 62` elements has both
index products inside the `int` range. -/
theorem window_bounds (page pageSize n : Nat) (hpage : 1 ≤ page)
    (hint : pageSize < 2 ^ 63) (hn : n ≤ 2 ^ 62) (hstart : (page - 1) * pageSize < n) :
    page * pageSize < 2 ^ 63 := by
  obtain ⟨k, rfl⟩ : ∃ k, page = k + 1 := ⟨page - 1, by omega⟩
  simp only [Nat.add_sub_cancel] at hstart
  rcases Nat.eq_zero_or_pos k with h0 | hk
  · subst h0; simpa using hint
  · have h1 : pageSize ≤ k * pageSize := Nat.le_mul_of_pos_left pageSize hk
    have h2 : (k + 1) * pageSize = k * pageSize + pageSize := by ring
    norm_num at hn hint ⊢
    omega

/-- A slice expression with bounds in order and inside the slice does not panic. -/
theorem sliceExpr_nat {α : Type} (s : List α) (lo hi : Nat) (h1 : lo ≤ hi) (h2 : hi ≤ s.length) :
    sliceExpr s (lo : Int) (hi : Int) = some ((s.drop lo).take (hi - lo)) := by
  unfold sliceExpr
  have : (0 : Int) ≤ lo ∧ (lo : Int) ≤ hi ∧ (hi : Int) ≤ (s.length : Int) := by omega
  simp [this]

/-- Lines 178–195 on a page that starts inside the sequence: the reply is `Success` with the
window that starts at `(page-1)*pageSize` and stops at `min(page*pageSize, len)`. -/
theorem pageReply_window (res : List GameHistoryPayment) (page pageSize : Nat)
    (hpage : 1 ≤ page) (hint : pageSize < 2 ^ 63)
    (hlen : res.length ≤ 2 ^ 62) (hstart : (page - 1) * pageSize < res.length) :
    pageReply res page pageSize = some ⟨.Success, StatusOK, .ok "success"
      (.payments ((res.drop ((page - 1) * pageSize)).take
        (min (page * pageSize) res.length - (page - 1) * pageSize)))⟩ := by
  have hend := window_bounds page pageSize res.length hpage hint hlen hstart
  have hle : (page - 1) * pageSize ≤ page * pageSize :=
    Nat.mul_le_mul_right _ (Nat.sub_le _ _)
  have hs : wrapInt (((page : Int) - 1) * pageSize) = (((page - 1) * pageSize : Nat) : Int) := by
    have hc : ((page : Int) - 1) * pageSize = (((page - 1) * pageSize : Nat) : Int) := by
      push_cast [Nat.cast_sub hpage]; ring
    rw [hc]; apply wrapInt_of_range
    · have : (0 : Int) ≤ (((page - 1) * pageSize : Nat) : Int) := Int.ofNat_nonneg _
      norm_num at this ⊢; omega
    · have : (((page - 1) * pageSize : Nat) : Int) < ((2 ^ 63 : Nat) : Int) := by
        exact_mod_cast lt_of_le_of_lt hle hend
      simpa using this
  have he : wrapInt ((page : Int) * pageSize) = ((page * pageSize : Nat) : Int) := by
    have hc : (page : Int) * pageSize = ((page * pageSize : Nat) : Int) := by push_cast; ring
    rw [hc]; apply wrapInt_of_range
    · have : (0 : Int) ≤ ((page * pageSize : Nat) : Int) := Int.ofNat_nonneg _
      norm_num at this ⊢; omega
    · have : ((page * pageSize : Nat) : Int) < ((2 ^ 63 : Nat) : Int) := by
        exact_mod_cast hend
      simpa using this
  have hne : res.length ≠ 0 := by omega
  unfold pageReply
  simp only [hne, if_false, hs, he]
  have hnot : ¬ ((((page - 1) * pageSize : Nat) : Int) ≥ (res.length : Int)) := by omega
  simp only [hnot, if_false]
  by_cases hclamp : ((page * pageSize : Nat) : Int) > (res.length : Int)
  · have hmin : min (page * pageSize) res.length = res.length := by omega
    simp only [hclamp, if_true, hmin]
    rw [sliceExpr_nat res _ _ (le_of_lt hstart) le_rfl]
  · have hmin : min (page * pageSize) res.length = page * pageSize := by omega
    simp only [hclamp, if_false, hmin]
    rw [sliceExpr_nat res _ _ hle (by omega)]

/-- Lines 178–187 on a page that starts at or after the end of a non-empty sequence, when
the start index fits an `int`: the reply is `PageOutOfRange`. -/
theorem pageReply_out_of_range (res : List GameHistoryPayment) (page pageSize : Nat)
    (hpage : 1 ≤ page) (hne : res ≠ []) (hfit : (page - 1) * pageSize < 2 ^ 63)
    (hstart : res.length ≤ (page - 1) * pageSize) :
    pageReply res page pageSize = some ⟨.PageOutOfRange, StatusBadRequest,
      .ok "failed no new page" (.sessions [])⟩ := by
  have hs : wrapInt (((page : Int) - 1) * pageSize) = (((page - 1) * pageSize : Nat) : Int) := by
    have hc : ((page : Int) - 1) * pageSize = (((page - 1) * pageSize : Nat) : Int) := by
      push_cast [Nat.cast_sub hpage]; ring
    rw [hc]; apply wrapInt_of_range
    · have : (0 : Int) ≤ (((page - 1) * pageSize : Nat) : Int) := Int.ofNat_nonneg _
      norm_num at this ⊢; omega
    · have : (((page - 1) * pageSize : Nat) : Int) < ((2 ^ 63 : Nat) : Int) := by
        exact_mod_cast hfit
      simpa using this
  have hlen : res.length ≠ 0 := by
    intro h; exact hne (List.length_eq_zero.mp h)
  have hge : (((page - 1) * pageSize : Nat) : Int) ≥ (res.length : Int) := by
    exact_mod_cast hstart
  unfold pageReply
  simp only [hlen, if_false, hs, hge, if_true]

/-! ## The handler on valid parameters -/

/-- With `page ≥ 1` and `pageSize ≥ 1` the handler is the populate stage followed by the
read-back stage. -/
theorem UserStakeHistory_valid (services : StackingContract) (cache : Cache) (clk : Clock)
    (address : String) (page pageSize : Int) (hpage : 1 ≤ page) (hsize : 1 ≤ pageSize) :
    UserStakeHistory services cache clk address (some page) (some pageSize) =
      match populate services cache clk address with
      | (some err, cache, calls) =>
        ⟨some ⟨.UpstreamFailure, StatusBadRequest, .fail "fail" err⟩, cache, calls⟩
      | (none, cache, calls) => readAndReply cache clk.atRead address page pageSize calls := by
  have h1 : ¬ page < 1 := by omega
  have h2 : ¬ pageSize < 1 := by omega
  simp only [UserStakeHistory, h1, h2, if_false]

/-- The reply of a run that reads the payment sequence `res` back from the cache. -/
theorem UserStakeHistory_held (services : StackingContract) (cache cache1 : Cache) (clk : Clock)
    (address : String) (page pageSize : Int) (calls : List Call)
    (res : List GameHistoryPayment) (hpage : 1 ≤ page) (hsize : 1 ≤ pageSize)
    (hpop : populate services cache clk address = (none, cache1, calls))
    (hheld : cache1.view clk.atRead address = some (.payments res)) :
    (UserStakeHistory services cache clk address (some page) (some pageSize)).result =
      pageReply res page pageSize := by
  rw [UserStakeHistory_valid _ _ _ _ _ _ hpage hsize, hpop]
  simp only [readAndReply]
  unfold Cache.view at hheld
  rw [hheld]

/-! ## The cache operations -/

/-- A `Get` that finds its key leaves the cache as it is. -/
theorem Cache.Get_found (c : Cache) (now : Nat) (key : String)
    (h : (c.Get now key).2.1 = true) : (c.Get now key).2.2 = c := by
  unfold Cache.Get at h ⊢
  cases hk : c key with
  | none => simp [hk] at h
  | some e =>
    by_cases hx : e.expiresAt ≤ now
    · simp [hk, hx] at h
    · simp [hx]

/-- A `Get` changes the cache at most by removing the entry of its own key. -/
theorem Cache.Get_cache (c : Cache) (now : Nat) (key : String) :
    (c.Get now key).2.2 = c ∨ (c.Get now key).2.2 = c.remove key := by
  unfold Cache.Get
  cases hk : c key with
  | none => simp
  | some e =>
    by_cases hx : e.expiresAt ≤ now
    · simp [hx]
    · simp [hx]

/-- A `Get` that misses leaves no entry that a later `Get` of the same key could find. -/
theorem Cache.Get_miss_later (c : Cache) (now later : Nat) (key : String)
    (h : (c.Get now key).2.1 = false) :
    ((c.Get now key).2.2.Get later key).2.1 = false := by
  unfold Cache.Get at h ⊢
  cases hk : c key with
  | none => simp [hk]
  | some e =>
    by_cases hx : e.expiresAt ≤ now
    · simp [hx, Cache.remove]
    · simp [hk, hx] at h

/-- The logical content in terms of the stored entry. -/
theorem Cache.view_eq (c : Cache) (now : Nat) (k : String) :
    c.view now k = (c k).bind fun e => if e.expiresAt ≤ now then none else some e.value := by
  unfold Cache.view Cache.Get
  cases hk : c k with
  | none => simp
  | some e =>
    by_cases hx : e.expiresAt ≤ now
    · simp [hx]
    · simp [hx]

/-- The flag of a `Get` says whether the key has logical content. -/
theorem Cache.Get_flag (c : Cache) (now : Nat) (k : String) :
    (c.Get now k).2.1 = (c.view now k).isSome := by
  unfold Cache.view Cache.Get
  cases hk : c k with
  | none => simp
  | some e =>
    by_cases hx : e.expiresAt ≤ now
    · simp [hx]
    · simp [hx]

/-- The logical content at a later time is not affected by an earlier `Get`. -/
theorem Cache.Get_view (c : Cache) (now later : Nat) (key k : String) (hlater : now ≤ later) :
    (c.Get now key).2.2.view later k = c.view later k := by
  rcases Cache.Get_cache c now key with h | h
  · rw [h]
  · rw [h, Cache.view_eq, Cache.view_eq]
    by_cases hkk : k = key
    · subst hkk
      have hrem : c.remove k k = none := by simp [Cache.remove]
      rw [hrem]
      unfold Cache.Get at h
      cases hk : c k with
      | none => simp
      | some e =>
        by_cases hx : e.expiresAt ≤ now
        · have : e.expiresAt ≤ later := by omega
          simp [this]
        · exfalso
          simp only [hk, hx, if_false] at h
          have := congrFun h k
          simp [hrem, hk] at this
    · have : c.remove key k = c k := by simp [Cache.remove, hkk]
      rw [this]

/-- After `Set` the key holds the new entry. -/
theorem Cache.Set_same (c : Cache) (now : Nat) (key : String) (value : Dyn) (ttl : Nat) :
    (c.Set now key value ttl) key = some ⟨value, now + ttl⟩ := by
  simp [Cache.Set]

/-- What `Set` stored is what a `Get` reports until the entry expires. -/
theorem Cache.view_Set (c : Cache) (now later : Nat) (key : String) (value : Dyn) (ttl : Nat)
    (hlive : later < now + ttl) : (c.Set now key value ttl).view later key = some value := by
  have : ¬ (now + ttl ≤ later) := by omega
  simp [Cache.view, Cache.Get, Cache.Set, this]

/-! ## The populate stage (lines 147–164) -/

/-- On a hit the populate stage makes one `Get` and nothing else. -/
theorem populate_hit (services : StackingContract) (cache : Cache) (clk : Clock)
    (address : String) (hhit : (cache.Get clk.atCheck address).2.1 = true) :
    populate services cache clk address = (none, cache, [Call.cacheGet address]) := by
  simp only [populate, hhit, if_true, Cache.Get_found cache _ _ hhit]

/-- On a miss with a failed ledger query the populate stage stops after the query. -/
theorem populate_miss_error (services : StackingContract) (cache : Cache) (clk : Clock)
    (address : String) (err : String) (hmiss : (cache.Get clk.atCheck address).2.1 = false)
    (hfail : services.UserStakeHistory address = .error err) :
    populate services cache clk address =
      (some err, (cache.Get clk.atCheck address).2.2,
        [Call.cacheGet address, Call.upstream address]) := by
  simp [populate, hmiss, hfail]

/-- On a miss with a successful ledger query the populate stage stores the sorted sequence. -/
theorem populate_miss_ok (services : StackingContract) (cache : Cache) (clk : Clock)
    (address : String) (s : List GameHistoryPayment)
    (hmiss : (cache.Get clk.atCheck address).2.1 = false)
    (hok : services.UserStakeHistory address = .ok s) :
    populate services cache clk address =
      (none, (cache.Get clk.atCheck address).2.2.Set clk.atSet address
          (.payments (sortHistory s)) historyTTL,
        [Call.cacheGet address, Call.upstream address,
          Call.cacheSet address (.payments (sortHistory s)) historyTTL]) := by
  simp [populate, hmiss, hok]

/-! ## The sort -/

/-- The inner loop only moves the new element: the result is a rearrangement. -/
theorem sink_perm {α : Type} (less : α → α → Bool) (x : α) (acc : List α) :
    (sink less x acc).Perm (x :: acc) := by
  induction acc with
  | nil => exact List.Perm.refl _
  | cons y ys ih =>
    unfold sink
    by_cases h : less x y = true
    · rw [if_pos h]
      exact ((List.Perm.cons y ih).trans (List.Perm.swap x y ys))
    · rw [if_neg h]

/-- The outer loop of the insertion sort rearranges what it has consumed. -/
theorem foldl_sink_perm {α : Type} (less : α → α → Bool) (s acc : List α) :
    (s.foldl (fun acc x => sink less x acc) acc).Perm (s ++ acc) := by
  induction s generalizing acc with
  | nil => exact List.Perm.refl _
  | cons x xs ih =>
    rw [List.foldl_cons]
    refine (ih (sink less x acc)).trans ?_
    refine (List.Perm.append_left xs (sink_perm less x acc)).trans ?_
    exact List.perm_middle

/-- The library sort returns a rearrangement of its input, whatever the comparator. -/
theorem SliceStable_perm {α : Type} (less : α → α → Bool) (s : List α) :
    (SliceStable less s).Perm s := by
  unfold SliceStable
  refine (List.reverse_perm _).trans ?_
  simpa using foldl_sink_perm less s []

/-- The inner loop keeps the prefix in order (read right-to-left: times ascending). -/
theorem sink_sorted (x : GameHistoryPayment) (acc : List GameHistoryPayment)
    (h : acc.Pairwise (fun a b => a.Time ≤ b.Time)) :
    (sink ComparePtrFieldsDesc x acc).Pairwise (fun a b => a.Time ≤ b.Time) := by
  induction acc with
  | nil => simp [sink]
  | cons y ys ih =>
    rw [List.pairwise_cons] at h
    unfold sink
    by_cases hc : ComparePtrFieldsDesc x y = true
    · rw [if_pos hc, List.pairwise_cons]
      refine ⟨?_, ih h.2⟩
      intro z hz
      have hz2 : z ∈ x :: ys := (sink_perm ComparePtrFieldsDesc x ys).mem_iff.mp hz
      rcases List.mem_cons.mp hz2 with rfl | hz3
      · simp only [ComparePtrFieldsDesc, decide_eq_true_eq] at hc
        omega
      · exact h.1 z hz3
    · rw [if_neg hc, List.pairwise_cons, List.pairwise_cons]
      simp only [ComparePtrFieldsDesc, decide_eq_true_eq, not_lt] at hc
      refine ⟨?_, h⟩
      intro z hz
      rcases List.mem_cons.mp hz with rfl | hz3
      · exact hc
      · exact le_trans hc (h.1 z hz3)

/-- The outer loop keeps the prefix in order. -/
theorem foldl_sink_sorted (s acc : List GameHistoryPayment)
    (h : acc.Pairwise (fun a b => a.Time ≤ b.Time)) :
    (s.foldl (fun acc x => sink ComparePtrFieldsDesc x acc) acc).Pairwise
      (fun a b => a.Time ≤ b.Time) := by
  induction s generalizing acc with
  | nil => exact h
  | cons x xs ih => exact ih _ (sink_sorted x acc h)

/-- The sorted sequence is in descending time order: every record is at least as recent as
every record after it. -/
theorem sortHistory_sorted (s : List GameHistoryPayment) :
    (sortHistory s).Pairwise (fun a b => b.Time ≤ a.Time) := by
  unfold sortHistory SliceStable
  rw [List.pairwise_reverse]
  exact foldl_sink_sorted s [] List.Pairwise.nil

/-- The inner loop never moves the new element past a record of its own time. -/
theorem sink_filter (t : Nat) (x : GameHistoryPayment) (acc : List GameHistoryPayment) :
    (sink ComparePtrFieldsDesc x acc).filter (fun r => decide (r.Time = t)) =
      (x :: acc).filter (fun r => decide (r.Time = t)) := by
  induction acc with
  | nil => simp [sink]
  | cons y ys ih =>
    unfold sink
    by_cases hc : ComparePtrFieldsDesc x y = true
    · rw [if_pos hc, List.filter_cons, ih]
      simp only [ComparePtrFieldsDesc, decide_eq_true_eq] at hc
      by_cases hx : x.Time = t
      · have hy : ¬ y.Time = t := by omega
        simp [List.filter_cons, hx, hy]
      · simp [List.filter_cons, hx]
    · rw [if_neg hc]

/-- The outer loop keeps, for every time, the records of that time in their order. -/
theorem foldl_sink_filter (t : Nat) (s acc : List GameHistoryPayment) :
    (s.foldl (fun acc x => sink ComparePtrFieldsDesc x acc) acc).filter
        (fun r => decide (r.Time = t)) =
      (s.reverse ++ acc).filter (fun r => decide (r.Time = t)) := by
  induction s generalizing acc with
  | nil => simp
  | cons x xs ih =>
    rw [List.foldl_cons, ih, List.filter_append, sink_filter, ← List.filter_append]
    simp

/-- The sort is stable: the records of any one time form the same sequence before and after. -/
theorem sortHistory_stable (s : List GameHistoryPayment) (t : Nat) :
    (sortHistory s).filter (fun r => decide (r.Time = t)) =
      s.filter (fun r => decide (r.Time = t)) := by
  unfold sortHistory SliceStable
  rw [List.filter_reverse, foldl_sink_filter]
  simp

/-- The sort returns a rearrangement of the fetched sequence. -/
theorem sortHistory_perm (s : List GameHistoryPayment) : (sortHistory s).Perm s :=
  SliceStable_perm ComparePtrFieldsDesc s

/-- Two records of equal time that occur in this order in the input occur in this order in
the output. -/
theorem sortHistory_pair (s : List GameHistoryPayment) (a b : GameHistoryPayment)
    (hab : a.Time = b.Time) (hsub : [a, b].Sublist s) : [a, b].Sublist (sortHistory s) := by
  have h1 := hsub.filter (fun r => decide (r.Time = a.Time))
  rw [← sortHistory_stable s a.Time] at h1
  have h2 : [a, b].filter (fun r => decide (r.Time = a.Time)) = [a, b] := by
    simp [List.filter_cons, hab]
  rw [h2] at h1
  exact h1.trans (List.filter_sublist _)

/-! ## The handler, branch by branch -/

/-- The read-back stage leaves the cache as its `Get` leaves it. -/
theorem readAndReply_cache (cache : Cache) (now : Nat) (address : String) (page pageSize : Int)
    (calls : List Call) :
    (readAndReply cache now address page pageSize calls).cache = (cache.Get now address).2.2 := by
  simp only [readAndReply]
  split <;> rfl

/-- The read-back stage makes one more call, a `Get`. -/
theorem readAndReply_calls (cache : Cache) (now : Nat) (address : String) (page pageSize : Int)
    (calls : List Call) :
    (readAndReply cache now address page pageSize calls).calls
      = calls ++ [Call.cacheGet address] := by
  simp only [readAndReply]
  split <;> rfl

/-- The run on a cache hit. -/
theorem UserStakeHistory_hit (services : StackingContract) (cache : Cache) (clk : Clock)
    (address : String) (page pageSize : Int) (hpage : 1 ≤ page) (hsize : 1 ≤ pageSize)
    (hhit : (cache.Get clk.atCheck address).2.1 = true) :
    UserStakeHistory services cache clk address (some page) (some pageSize) =
      readAndReply cache clk.atRead address page pageSize [Call.cacheGet address] := by
  rw [UserStakeHistory_valid _ _ _ _ _ _ hpage hsize, populate_hit _ _ _ _ hhit]

/-- The run on a cache miss with a failed ledger query. -/
theorem UserStakeHistory_miss_error (services : StackingContract) (cache : Cache) (clk : Clock)
    (address : String) (page pageSize : Int) (err : String) (hpage : 1 ≤ page)
    (hsize : 1 ≤ pageSize) (hmiss : (cache.Get clk.atCheck address).2.1 = false)
    (hfail : services.UserStakeHistory address = .error err) :
    UserStakeHistory services cache clk address (some page) (some pageSize) =
      ⟨some ⟨.UpstreamFailure, StatusBadRequest, .fail "fail" err⟩,
        (cache.Get clk.atCheck address).2.2,
        [Call.cacheGet address, Call.upstream address]⟩ := by
  rw [UserStakeHistory_valid _ _ _ _ _ _ hpage hsize,
    populate_miss_error _ _ _ _ err hmiss hfail]

/-- The run on a cache miss with a successful ledger query. -/
theorem UserStakeHistory_miss_ok (services : StackingContract) (cache : Cache) (clk : Clock)
    (address : String) (page pageSize : Int) (s : List GameHistoryPayment) (hpage : 1 ≤ page)
    (hsize : 1 ≤ pageSize) (hmiss : (cache.Get clk.atCheck address).2.1 = false)
    (hok : services.UserStakeHistory address = .ok s) :
    UserStakeHistory services cache clk address (some page) (some pageSize) =
      readAndReply
        ((cache.Get clk.atCheck address).2.2.Set clk.atSet address
          (.payments (sortHistory s)) historyTTL)
        clk.atRead address page pageSize
        [Call.cacheGet address, Call.upstream address,
          Call.cacheSet address (.payments (sortHistory s)) historyTTL] := by
  rw [UserStakeHistory_valid _ _ _ _ _ _ hpage hsize, populate_miss_ok _ _ _ _ s hmiss hok]

/-- A `Get` never adds an entry. -/
theorem Cache.Get_sub (c : Cache) (now : Nat) (key k : String) (e : CacheEntry)
    (h : (c.Get now key).2.2 k = some e) : c k = some e := by
  rcases Cache.Get_cache c now key with h1 | h1
  · rw [h1] at h; exact h
  · rw [h1] at h
    unfold Cache.remove at h
    by_cases hk : k = key
    · simp [hk] at h
    · simpa [hk] using h

/-- A `Get` that finds its key at time `now` finds an entry that has not expired. -/
theorem Cache.Get_live (c : Cache) (now : Nat) (key : String)
    (h : (c.Get now key).2.1 = true) : ∃ e, c key = some e ∧ now < e.expiresAt := by
  unfold Cache.Get at h
  cases hk : c key with
  | none => simp [hk] at h
  | some e =>
    by_cases hx : e.expiresAt ≤ now
    · simp [hk, hx] at h
    · exact ⟨e, rfl, by omega⟩

/-! ## Claims on pagination -/

/-- C1. For `page ≥ 1`, `pageSize ≥ 1` and a sequence `res` read back for the address with
`(page-1)*pageSize < len(res)` (so `res` is not empty), the reply is `Success` and its page is
the contiguous run of `res` from index `(page-1)*pageSize` up to, not including,
`min(page*pageSize, len(res))`, in the same order. `pageSize` is a Go `int` and a slice of
payment records has at most `2 ^ 62` elements. -/
theorem UserStakeHistory_page_window (services : StackingContract) (cache cache1 : Cache)
    (clk : Clock) (address : String) (page pageSize : Nat) (calls : List Call)
    (res : List GameHistoryPayment) (hpage : 1 ≤ page) (hsize : 1 ≤ pageSize)
    (hint : pageSize < 2 ^ 63)
    (hpop : populate services cache clk address = (none, cache1, calls))
    (hheld : cache1.view clk.atRead address = some (.payments res))
    (hlen : res.length ≤ 2 ^ 62)
    (hstart : (page - 1) * pageSize < res.length) :
    ∃ window : List GameHistoryPayment,
      (UserStakeHistory services cache clk address (some (page : Int))
          (some (pageSize : Int))).result
        = some ⟨.Success, StatusOK, .ok "success" (.payments window)⟩ ∧
      window.length = min (page * pageSize) res.length - (page - 1) * pageSize ∧
      ∀ i, i < min (page * pageSize) res.length - (page - 1) * pageSize →
        window[i]? = res[(page - 1) * pageSize + i]? := by
  refine ⟨(res.drop ((page - 1) * pageSize)).take
    (min (page * pageSize) res.length - (page - 1) * pageSize), ?_, ?_, ?_⟩
  · rw [UserStakeHistory_held services cache cache1 clk address page pageSize calls res
      (by exact_mod_cast hpage) (by exact_mod_cast hsize) hpop hheld]
    exact pageReply_window res page pageSize hpage hint hlen hstart
  · simp only [List.length_take, List.length_drop]
    omega
  · intro i hi
    rw [List.getElem?_take_of_lt hi, List.getElem?_drop]

/-- C1, at a concrete run: three cached records, page 2 of size 2. -/
theorem UserStakeHistory_page_window_witness :
    ∃ window : List GameHistoryPayment,
      (UserStakeHistory (sampleService (.ok [])) (sampleCache sampleHistory) sampleClock
          sampleAddress (some ((2 : Nat) : Int)) (some ((2 : Nat) : Int))).result
        = some ⟨.Success, StatusOK, .ok "success" (.payments window)⟩ ∧
      window.length = min (2 * 2) sampleHistory.length - (2 - 1) * 2 ∧
      ∀ i, i < min (2 * 2) sampleHistory.length - (2 - 1) * 2 →
        window[i]? = sampleHistory[(2 - 1) * 2 + i]? :=
  UserStakeHistory_page_window (sampleService (.ok [])) (sampleCache sampleHistory)
    (sampleCache sampleHistory) sampleClock sampleAddress 2 2 [Call.cacheGet sampleAddress]
    sampleHistory (by decide) (by decide) (by norm_num)
    (populate_hit _ _ _ _ (by decide)) (by decide) (by decide) (by decide)

/-- C2, the code at a failing input. One record is cached; the request is page 4294967297 of
size 4294967296, both valid `int` values with `(page-1)*pageSize = 2^64 ≥ 1 = len(res)`. The
product wraps to 0, the range check passes and the reply is `Success` with the whole
sequence instead of `PageOutOfRange`. -/
theorem UserStakeHistory_overflow_success :
    (1 : Int) ≤ 4294967297 ∧ (4294967297 : Int) < 2 ^ 63 ∧
    (1 : Int) ≤ 4294967296 ∧ (4294967296 : Int) < 2 ^ 63 ∧
    (([⟨1, 10, 5⟩] : List GameHistoryPayment).length : Int) ≤ (4294967297 - 1) * 4294967296 ∧
    (UserStakeHistory (sampleService (.ok [])) (sampleCache [⟨1, 10, 5⟩]) sampleClock
        sampleAddress (some 4294967297) (some 4294967296)).result
      = some ⟨.Success, StatusOK, .ok "success" (.payments [⟨1, 10, 5⟩])⟩ := by
  refine ⟨by norm_num, by norm_num, by norm_num, by norm_num, by norm_num, ?_⟩
  rw [UserStakeHistory_held (sampleService (.ok [])) (sampleCache [⟨1, 10, 5⟩])
    (sampleCache [⟨1, 10, 5⟩]) sampleClock sampleAddress 4294967297 4294967296
    [Call.cacheGet sampleAddress] [⟨1, 10, 5⟩] (by norm_num) (by norm_num)
    (populate_hit _ _ _ _ (by decide)) (by decide)]
  decide

/-- Whenever the sequence read back for the address is empty, the reply is `NoData` for
every `page ≥ 1` and `pageSize ≥ 1`: it is neither `UpstreamFailure` nor `PageOutOfRange`. -/
theorem UserStakeHistory_no_data (services : StackingContract) (cache cache1 : Cache)
    (clk : Clock) (address : String) (page pageSize : Int) (calls : List Call)
    (hpage : 1 ≤ page) (hsize : 1 ≤ pageSize)
    (hpop : populate services cache clk address = (none, cache1, calls))
    (hheld : cache1.view clk.atRead address = some (.payments [])) :
    (UserStakeHistory services cache clk address (some page) (some pageSize)).result
        = some ⟨.NoData, StatusBadRequest,
            .ok "failed no game data for provided gid" (.sessions [])⟩ ∧
      ∀ r, (UserStakeHistory services cache clk address (some page) (some pageSize)).result
          = some r → r.kind ≠ .UpstreamFailure ∧ r.kind ≠ .PageOutOfRange := by
  have h := UserStakeHistory_held services cache cache1 clk address page pageSize calls []
    hpage hsize hpop hheld
  have h2 : pageReply [] page pageSize = some ⟨.NoData, StatusBadRequest,
      .ok "failed no game data for provided gid" (.sessions [])⟩ := by
    simp [pageReply]
  rw [h, h2]
  refine ⟨rfl, ?_⟩
  intro r hr
  cases hr
  exact ⟨by decide, by decide⟩

/-- An instance: an empty cache, a ledger query that succeeds with zero records, read back
before the entry expires, page 1 of size 10. -/
theorem UserStakeHistory_no_data_example :
    (UserStakeHistory (sampleService (.ok [])) NewCache sampleClock sampleAddress
          (some 1) (some 10)).result
        = some ⟨.NoData, StatusBadRequest,
            .ok "failed no game data for provided gid" (.sessions [])⟩ ∧
      ∀ r, (UserStakeHistory (sampleService (.ok [])) NewCache sampleClock sampleAddress
          (some 1) (some 10)).result
          = some r → r.kind ≠ .UpstreamFailure ∧ r.kind ≠ .PageOutOfRange :=
  UserStakeHistory_no_data (sampleService (.ok [])) NewCache
    (NewCache.Set sampleClock.atSet sampleAddress (.payments (sortHistory [])) historyTTL)
    sampleClock sampleAddress 1 10
    [Call.cacheGet sampleAddress, Call.upstream sampleAddress,
      Call.cacheSet sampleAddress (.payments (sortHistory [])) historyTTL]
    (by decide) (by decide) (populate_miss_ok _ _ _ _ [] (by decide) rfl) (by decide)

/-- C3, the code at a failing input. The empty sequence is cached for the address and
expires at 360000000000; page 1 of size 10 is requested. The first `Get`, one nanosecond
before the expiry, hits, so nothing is fetched; the second `Get`, at the expiry, returns nil,
the type assertion panics and no `NoData` reply is written. The same happens after a ledger
query that succeeds with zero records when the read-back comes 6 minutes after the `Set`. -/
theorem UserStakeHistory_empty_not_no_data :
    ((sampleCache []).Get expiryClock.atCheck sampleAddress).1 = some (.payments []) ∧
    ((sampleCache []).Get expiryClock.atCheck sampleAddress).2.1 = true ∧
    ((sampleCache []).Get expiryClock.atRead sampleAddress).1 = none ∧
    (UserStakeHistory (sampleService (.ok [])) (sampleCache []) expiryClock sampleAddress
        (some 1) (some 10)).result = none ∧
    (UserStakeHistory (sampleService (.ok [])) (sampleCache []) expiryClock sampleAddress
        (some 1) (some 10)).result
      ≠ some ⟨.NoData, StatusBadRequest,
          .ok "failed no game data for provided gid" (.sessions [])⟩ ∧
    (sampleService (.ok [])).UserStakeHistory sampleAddress = .ok [] ∧
    (UserStakeHistory (sampleService (.ok [])) NewCache ⟨0, 0, 360000000000⟩ sampleAddress
        (some 1) (some 10)).calls
      = [Call.cacheGet sampleAddress, Call.upstream sampleAddress,
          Call.cacheSet sampleAddress (.payments []) historyTTL,
          Call.cacheGet sampleAddress] ∧
    (UserStakeHistory (sampleService (.ok [])) NewCache ⟨0, 0, 360000000000⟩ sampleAddress
        (some 1) (some 10)).result = none := by
  refine ⟨by decide, by decide, by decide, by decide, by decide, rfl, by decide, by decide⟩

/-- C4. If the parsed `page` is below 1 or the parsed `pageSize` is below 1, then for every
cache, every ledger behaviour and every clock the handler writes an `InvalidParameter` reply
(status 400, `Status` "fail"): the run does not panic, the reply is not `Success`, and the
handler has touched neither the cache nor the ledger. -/
theorem UserStakeHistory_invalid_parameter (services : StackingContract) (cache : Cache)
    (clk : Clock) (address : String) (page pageSize : Option Int)
    (hbad : (∃ p, page = some p ∧ p < 1) ∨ (∃ s, pageSize = some s ∧ s < 1)) :
    ∃ msg, (UserStakeHistory services cache clk address page pageSize).result
        = some ⟨.InvalidParameter, StatusBadRequest, .fail "fail" msg⟩ ∧
      (msg = "Invalid page number" ∨ msg = "Invalid page size") ∧
      (UserStakeHistory services cache clk address page pageSize).cache = cache ∧
      (UserStakeHistory services cache clk address page pageSize).calls = [] := by
  have key : ∃ msg, UserStakeHistory services cache clk address page pageSize
        = ⟨some ⟨.InvalidParameter, StatusBadRequest, .fail "fail" msg⟩, cache, []⟩ ∧
      (msg = "Invalid page number" ∨ msg = "Invalid page size") := by
    cases page with
    | none => exact ⟨_, rfl, Or.inl rfl⟩
    | some p =>
      by_cases hp : p < 1
      · exact ⟨"Invalid page number", by simp [UserStakeHistory, hp], Or.inl rfl⟩
      · cases pageSize with
        | none => exact ⟨"Invalid page size", by simp [UserStakeHistory, hp], Or.inr rfl⟩
        | some s =>
          have hs : s < 1 := by
            rcases hbad with ⟨p1, h1, h2⟩ | ⟨s1, h1, h2⟩
            · cases h1; exact absurd h2 hp
            · cases h1; exact h2
          exact ⟨"Invalid page size", by simp [UserStakeHistory, hp, hs], Or.inr rfl⟩
  obtain ⟨msg, hrun, hmsg⟩ := key
  exact ⟨msg, by rw [hrun], hmsg, by rw [hrun], by rw [hrun]⟩

/-- C4, at a concrete run: `page=0` with a populated cache. -/
theorem UserStakeHistory_invalid_parameter_witness :
    ∃ msg, (UserStakeHistory (sampleService (.ok sampleHistory)) (sampleCache sampleHistory)
          sampleClock sampleAddress (some 0) (some 10)).result
        = some ⟨.InvalidParameter, StatusBadRequest, .fail "fail" msg⟩ ∧
      (msg = "Invalid page number" ∨ msg = "Invalid page size") ∧
      (UserStakeHistory (sampleService (.ok sampleHistory)) (sampleCache sampleHistory)
          sampleClock sampleAddress (some 0) (some 10)).cache = sampleCache sampleHistory ∧
      (UserStakeHistory (sampleService (.ok sampleHistory)) (sampleCache sampleHistory)
          sampleClock sampleAddress (some 0) (some 10)).calls = [] :=
  UserStakeHistory_invalid_parameter (sampleService (.ok sampleHistory))
    (sampleCache sampleHistory) sampleClock sampleAddress (some 0) (some 10)
    (Or.inl ⟨0, rfl, by decide⟩)

/-! ## Claims on the cache-aside path -/

/-- C5. On a cache miss for the address with a failing ledger query the reply is
`UpstreamFailure` carrying the error, and the cache is left as it was: the handler calls
`Get` and the ledger and never `Set`, no key gains an entry, the logical content of every
key is the same at every later time, and every later `Get` of the address still reports
`found = false`. -/
theorem UserStakeHistory_fetch_failure (services : StackingContract) (cache : Cache)
    (clk : Clock) (address : String) (page pageSize : Int) (err : String) (out : Outcome)
    (hpage : 1 ≤ page) (hsize : 1 ≤ pageSize)
    (hmiss : (cache.Get clk.atCheck address).2.1 = false)
    (hfail : services.UserStakeHistory address = .error err)
    (hout : out = UserStakeHistory services cache clk address (some page) (some pageSize)) :
    out.result = some ⟨.UpstreamFailure, StatusBadRequest, .fail "fail" err⟩ ∧
    out.calls = [Call.cacheGet address, Call.upstream address] ∧
    (∀ k v ttl, Call.cacheSet k v ttl ∉ out.calls) ∧
    (∀ k e, out.cache k = some e → cache k = some e) ∧
    (∀ k t, clk.atCheck ≤ t → out.cache.view t k = cache.view t k) ∧
    (∀ t, (out.cache.Get t address).2.1 = false) := by
  rw [UserStakeHistory_miss_error services cache clk address page pageSize err hpage hsize
    hmiss hfail] at hout
  subst hout
  refine ⟨rfl, rfl, ?_, ?_, ?_, ?_⟩
  · intro k v ttl hmem
    simp at hmem
  · intro k e h
    exact Cache.Get_sub cache clk.atCheck address k e h
  · intro k t ht
    exact Cache.Get_view cache clk.atCheck t address k ht
  · intro t
    exact Cache.Get_miss_later cache clk.atCheck t address hmiss

/-- C5, at a concrete run: an empty cache and a ledger that is down. -/
theorem UserStakeHistory_fetch_failure_witness :
    ∃ out, out = UserStakeHistory (sampleService (.error "node down")) NewCache sampleClock
        sampleAddress (some 1) (some 10) ∧
      out.result = some ⟨.UpstreamFailure, StatusBadRequest, .fail "fail" "node down"⟩ ∧
      out.calls = [Call.cacheGet sampleAddress, Call.upstream sampleAddress] ∧
      (∀ k v ttl, Call.cacheSet k v ttl ∉ out.calls) ∧
      (∀ k e, out.cache k = some e → NewCache k = some e) ∧
      (∀ k t, sampleClock.atCheck ≤ t → out.cache.view t k = NewCache.view t k) ∧
      (∀ t, (out.cache.Get t sampleAddress).2.1 = false) :=
  ⟨_, rfl, UserStakeHistory_fetch_failure (sampleService (.error "node down")) NewCache
    sampleClock sampleAddress 1 10 "node down" _ (by decide) (by decide) (by decide) rfl rfl⟩

/-- C6. When the `Get` of the address reports a hit, the handler makes no ledger query and
no `Set`: its only calls are the two `Get`s, no key gains an entry, the logical content of
every key is the same at every time from the read-back on, and the cache is the very same
map whenever the entry is still live at the read-back. -/
theorem UserStakeHistory_hit_frame (services : StackingContract) (cache : Cache)
    (clk : Clock) (address : String) (page pageSize : Int) (out : Outcome)
    (hpage : 1 ≤ page) (hsize : 1 ≤ pageSize)
    (hhit : (cache.Get clk.atCheck address).2.1 = true)
    (hout : out = UserStakeHistory services cache clk address (some page) (some pageSize)) :
    out.calls = [Call.cacheGet address, Call.cacheGet address] ∧
    (∀ a, Call.upstream a ∉ out.calls) ∧
    (∀ k v ttl, Call.cacheSet k v ttl ∉ out.calls) ∧
    (∀ k e, out.cache k = some e → cache k = some e) ∧
    (∀ k t, clk.atRead ≤ t → out.cache.view t k = cache.view t k) ∧
    ((cache.Get clk.atRead address).2.1 = true → out.cache = cache) := by
  rw [UserStakeHistory_hit services cache clk address page pageSize hpage hsize hhit] at hout
  subst hout
  rw [readAndReply_calls, readAndReply_cache]
  refine ⟨rfl, ?_, ?_, ?_, ?_, ?_⟩
  · intro a hmem
    simp at hmem
  · intro k v ttl hmem
    simp at hmem
  · intro k e h
    exact Cache.Get_sub cache clk.atRead address k e h
  · intro k t ht
    exact Cache.Get_view cache clk.atRead t address k ht
  · intro h
    exact Cache.Get_found cache clk.atRead address h

/-- C6, at a concrete run: the sample sequence is cached and live. -/
theorem UserStakeHistory_hit_frame_witness :
    ∃ out, out = UserStakeHistory (sampleService (.error "node down"))
        (sampleCache sampleHistory) sampleClock sampleAddress (some 1) (some 10) ∧
      out.calls = [Call.cacheGet sampleAddress, Call.cacheGet sampleAddress] ∧
      (∀ a, Call.upstream a ∉ out.calls) ∧
      (∀ k v ttl, Call.cacheSet k v ttl ∉ out.calls) ∧
      (∀ k e, out.cache k = some e → sampleCache sampleHistory k = some e) ∧
      (∀ k t, sampleClock.atRead ≤ t →
        out.cache.view t k = (sampleCache sampleHistory).view t k) ∧
      (((sampleCache sampleHistory).Get sampleClock.atRead sampleAddress).2.1 = true →
        out.cache = sampleCache sampleHistory) :=
  ⟨_, rfl, UserStakeHistory_hit_frame (sampleService (.error "node down"))
    (sampleCache sampleHistory) sampleClock sampleAddress 1 10 _ (by decide) (by decide)
    (by decide) rfl⟩

/-- C7. On a cache miss for the address with a ledger query that succeeds with `s`, the
handler calls `Set` exactly once, with the address as key, the sorted sequence as value and
6 minutes (360000000000 ns) as time-to-live; right after the `Set` the cache holds that
sequence under the address, expiring 6 minutes after the `Set`, and it is what a `Get`
reports until then. The value is a rearrangement of `s` in descending time order with the
records of each time in their fetched order. -/
theorem UserStakeHistory_miss_populates (services : StackingContract) (cache : Cache)
    (clk : Clock) (address : String) (page pageSize : Int) (s : List GameHistoryPayment)
    (out : Outcome) (hpage : 1 ≤ page) (hsize : 1 ≤ pageSize)
    (hmiss : (cache.Get clk.atCheck address).2.1 = false)
    (hok : services.UserStakeHistory address = .ok s)
    (hout : out = UserStakeHistory services cache clk address (some page) (some pageSize)) :
    out.calls = [Call.cacheGet address, Call.upstream address,
      Call.cacheSet address (.payments (sortHistory s)) 360000000000,
      Call.cacheGet address] ∧
    (populate services cache clk address).2.1 address
      = some ⟨.payments (sortHistory s), clk.atSet + 360000000000⟩ ∧
    (∀ t, t < clk.atSet + 360000000000 →
      (populate services cache clk address).2.1.view t address
        = some (.payments (sortHistory s))) ∧
    (clk.atRead < clk.atSet + 360000000000 →
      out.cache address = some ⟨.payments (sortHistory s), clk.atSet + 360000000000⟩) ∧
    (sortHistory s).Perm s ∧
    (sortHistory s).Pairwise (fun a b => b.Time ≤ a.Time) ∧
    (∀ t, (sortHistory s).filter (fun r => decide (r.Time = t))
      = s.filter (fun r => decide (r.Time = t))) := by
  have httl : historyTTL = 360000000000 := by decide
  rw [UserStakeHistory_miss_ok services cache clk address page pageSize s hpage hsize
    hmiss hok] at hout
  subst hout
  rw [readAndReply_calls, readAndReply_cache, populate_miss_ok _ _ _ _ s hmiss hok, httl]
  refine ⟨rfl, ?_, ?_, ?_, sortHistory_perm s, sortHistory_sorted s, sortHistory_stable s⟩
  · exact Cache.Set_same _ _ _ _ _
  · intro t ht
    exact Cache.view_Set _ _ _ _ _ _ ht
  · intro ht
    have hview := Cache.view_Set (cache.Get clk.atCheck address).2.2 clk.atSet clk.atRead
      address (.payments (sortHistory s)) 360000000000 ht
    have hflag := Cache.Get_flag ((cache.Get clk.atCheck address).2.2.Set clk.atSet address
      (.payments (sortHistory s)) 360000000000) clk.atRead address
    rw [hview] at hflag
    rw [Cache.Get_found _ _ _ (by simpa using hflag)]
    exact Cache.Set_same _ _ _ _ _

/-- C7, at a concrete run: an empty cache and a ledger that returns the sample sequence. -/
theorem UserStakeHistory_miss_populates_witness :
    ∃ out, out = UserStakeHistory (sampleService (.ok sampleHistory)) NewCache sampleClock
        sampleAddress (some 1) (some 10) ∧
      out.calls = [Call.cacheGet sampleAddress, Call.upstream sampleAddress,
        Call.cacheSet sampleAddress (.payments (sortHistory sampleHistory)) 360000000000,
        Call.cacheGet sampleAddress] ∧
      out.cache sampleAddress
        = some ⟨.payments [⟨2, 20, 10⟩, ⟨1, 10, 5⟩, ⟨3, 30, 5⟩], 360000002000⟩ :=
  ⟨_, rfl,
    (UserStakeHistory_miss_populates (sampleService (.ok sampleHistory)) NewCache sampleClock
      sampleAddress 1 10 sampleHistory _ (by decide) (by decide) (by decide) rfl rfl).1,
    (UserStakeHistory_miss_populates (sampleService (.ok sampleHistory)) NewCache sampleClock
      sampleAddress 1 10 sampleHistory _ (by decide) (by decide) (by decide) rfl rfl).2.2.2.1
      (by decide)⟩

/-! ## Claims on the sort -/

/-- C8. The sort applied to a freshly fetched sequence yields descending time order: for
every input and every pair of adjacent output positions `i`, `i+1`, the record at `i` has a
time at least that of the record at `i+1`. -/
theorem sortHistory_adjacent_descending (s : List GameHistoryPayment) (i : Nat)
    (a b : GameHistoryPayment) (ha : (sortHistory s)[i]? = some a)
    (hb : (sortHistory s)[i + 1]? = some b) : b.Time ≤ a.Time := by
  have hsorted := sortHistory_sorted s
  rw [List.pairwise_iff_getElem] at hsorted
  obtain ⟨hi, rfl⟩ := List.getElem?_eq_some_iff.mp ha
  obtain ⟨hj, rfl⟩ := List.getElem?_eq_some_iff.mp hb
  exact hsorted i (i + 1) hi hj (Nat.lt_succ_self i)

/-- C8, at a concrete input: the first two records of the sorted sample sequence. -/
theorem sortHistory_adjacent_descending_witness :
    (⟨1, 10, 5⟩ : GameHistoryPayment).Time ≤ (⟨2, 20, 10⟩ : GameHistoryPayment).Time :=
  sortHistory_adjacent_descending sampleHistory 0 ⟨2, 20, 10⟩ ⟨1, 10, 5⟩ (by decide) (by decide)

/-- C9. The sort applied to a freshly fetched sequence returns a permutation of its input:
the output has the same length and holds every record as often as the input does, and the
empty input gives the empty output. This holds for the library sort under any comparator. -/
theorem sortHistory_permutation (s : List GameHistoryPayment) :
    (sortHistory s).Perm s ∧
    (sortHistory s).length = s.length ∧
    (∀ r, (sortHistory s).count r = s.count r) ∧
    sortHistory [] = [] ∧
    ∀ less : GameHistoryPayment → GameHistoryPayment → Bool,
      (SliceStable less s).Perm s ∧ SliceStable less [] = [] :=
  ⟨sortHistory_perm s, (sortHistory_perm s).length_eq,
    fun r => (sortHistory_perm s).count_eq r, rfl,
    fun less => ⟨SliceStable_perm less s, rfl⟩⟩

/-- C10. The sort applied to a freshly fetched sequence is stable: for every input and every
time `t` the records of time `t` form the same sequence in the output as in the input, so
two records of equal time that occur in some order in the input occur in that order in the
output; sorting `[a (t=5), b (t=10), c (t=5)]` gives `[b, a, c]`. -/
theorem sortHistory_stability (s : List GameHistoryPayment) :
    (∀ t, (sortHistory s).filter (fun r => decide (r.Time = t))
      = s.filter (fun r => decide (r.Time = t))) ∧
    (∀ a b : GameHistoryPayment, a.Time = b.Time → [a, b].Sublist s →
      [a, b].Sublist (sortHistory s)) ∧
    sortHistory [⟨1, 10, 5⟩, ⟨2, 20, 10⟩, ⟨3, 30, 5⟩]
      = [⟨2, 20, 10⟩, ⟨1, 10, 5⟩, ⟨3, 30, 5⟩] :=
  ⟨sortHistory_stable s, fun a b hab hsub => sortHistory_pair s a b hab hsub, by decide⟩

/-! ## Every run, by its calls and its reply -/

/-- The reply of the read-back stage when the cache holds the payment sequence `res`. -/
theorem readAndReply_held (cache : Cache) (now : Nat) (address : String) (page pageSize : Int)
    (calls : List Call) (res : List GameHistoryPayment)
    (hheld : cache.view now address = some (.payments res)) :
    (readAndReply cache now address page pageSize calls).result
      = pageReply res page pageSize := by
  simp only [readAndReply]
  unfold Cache.view at hheld
  rw [hheld]

/-- The read-back stage either panics or writes what `pageReply` writes for a sequence. -/
theorem readAndReply_result (cache : Cache) (now : Nat) (address : String)
    (page pageSize : Int) (calls : List Call) :
    (readAndReply cache now address page pageSize calls).result = none ∨
      ∃ res, (readAndReply cache now address page pageSize calls).result
        = pageReply res page pageSize := by
  simp only [readAndReply]
  split
  · exact Or.inr ⟨_, rfl⟩
  · exact Or.inl rfl

/-- The three replies `pageReply` can write. -/
theorem pageReply_shape (res : List GameHistoryPayment) (page pageSize : Int) (r : Response)
    (h : pageReply res page pageSize = some r) :
    r = ⟨.NoData, StatusBadRequest, .ok "failed no game data for provided gid" (.sessions [])⟩ ∨
    r = ⟨.PageOutOfRange, StatusBadRequest, .ok "failed no new page" (.sessions [])⟩ ∨
    ∃ window, r = ⟨.Success, StatusOK, .ok "success" (.payments window)⟩ := by
  unfold pageReply at h
  split at h
  · exact Or.inl (Option.some.inj h).symm
  · simp only at h
    split at h
    · exact Or.inr (Or.inl (Option.some.inj h).symm)
    · split at h
      · exact absurd h (by simp)
      · exact Or.inr (Or.inr ⟨_, (Option.some.inj h).symm⟩)

/-- The calls of a run, path by path: none (invalid parameter), two `Get`s (hit), a `Get`
and a failed query, or a `Get`, a successful query, the `Set` and a `Get`. -/
theorem UserStakeHistory_calls (services : StackingContract) (cache : Cache) (clk : Clock)
    (address : String) (page pageSize : Option Int) :
    (UserStakeHistory services cache clk address page pageSize).calls = [] ∨
    (UserStakeHistory services cache clk address page pageSize).calls
      = [Call.cacheGet address, Call.cacheGet address] ∨
    ((∃ err, services.UserStakeHistory address = .error err) ∧
      (UserStakeHistory services cache clk address page pageSize).calls
        = [Call.cacheGet address, Call.upstream address]) ∨
    (∃ s, services.UserStakeHistory address = .ok s ∧
      (UserStakeHistory services cache clk address page pageSize).calls
        = [Call.cacheGet address, Call.upstream address,
            Call.cacheSet address (.payments (sortHistory s)) historyTTL,
            Call.cacheGet address]) := by
  cases page with
  | none => exact Or.inl rfl
  | some p =>
    by_cases hp : p < 1
    · exact Or.inl (by simp [UserStakeHistory, hp])
    · cases pageSize with
      | none => exact Or.inl (by simp [UserStakeHistory, hp])
      | some q =>
        by_cases hq : q < 1
        · exact Or.inl (by simp [UserStakeHistory, hp, hq])
        · have hp1 : 1 ≤ p := by omega
          have hq1 : 1 ≤ q := by omega
          cases hhit : (cache.Get clk.atCheck address).2.1 with
          | true =>
            rw [UserStakeHistory_hit services cache clk address p q hp1 hq1 hhit,
              readAndReply_calls]
            exact Or.inr (Or.inl rfl)
          | false =>
            cases hsvc : services.UserStakeHistory address with
            | error err =>
              rw [UserStakeHistory_miss_error services cache clk address p q err hp1 hq1
                hhit hsvc]
              exact Or.inr (Or.inr (Or.inl ⟨⟨err, rfl⟩, rfl⟩))
            | ok s =>
              rw [UserStakeHistory_miss_ok services cache clk address p q s hp1 hq1
                hhit hsvc, readAndReply_calls]
              exact Or.inr (Or.inr (Or.inr ⟨s, rfl, rfl⟩))

/-- The reply of a run, path by path: a panic, an `InvalidParameter` failure, an
`UpstreamFailure` failure, or one of the three replies of `pageReply`. -/
theorem UserStakeHistory_result (services : StackingContract) (cache : Cache) (clk : Clock)
    (address : String) (page pageSize : Option Int) (r : Response)
    (h : (UserStakeHistory services cache clk address page pageSize).result = some r) :
    (∃ msg, r = ⟨.InvalidParameter, StatusBadRequest, .fail "fail" msg⟩) ∨
    (∃ err, r = ⟨.UpstreamFailure, StatusBadRequest, .fail "fail" err⟩) ∨
    r = ⟨.NoData, StatusBadRequest, .ok "failed no game data for provided gid" (.sessions [])⟩ ∨
    r = ⟨.PageOutOfRange, StatusBadRequest, .ok "failed no new page" (.sessions [])⟩ ∨
    ∃ window, r = ⟨.Success, StatusOK, .ok "success" (.payments window)⟩ := by
  have hread : ∀ (c : Cache) (p q : Int) (calls : List Call),
      (readAndReply c clk.atRead address p q calls).result = some r →
      r = ⟨.NoData, StatusBadRequest,
          .ok "failed no game data for provided gid" (.sessions [])⟩ ∨
      r = ⟨.PageOutOfRange, StatusBadRequest, .ok "failed no new page" (.sessions [])⟩ ∨
      ∃ window, r = ⟨.Success, StatusOK, .ok "success" (.payments window)⟩ := by
    intro c p q calls hr
    rcases readAndReply_result c clk.atRead address p q calls with hnone | ⟨res, hres⟩
    · rw [hnone] at hr; exact absurd hr (by simp)
    · rw [hres] at hr; exact pageReply_shape res p q r hr
  cases page with
  | none =>
    exact Or.inl ⟨_, (Option.some.inj h).symm⟩
  | some p =>
    by_cases hp : p < 1
    · simp only [UserStakeHistory, hp, if_true] at h
      exact Or.inl ⟨_, (Option.some.inj h).symm⟩
    · cases pageSize with
      | none =>
        simp only [UserStakeHistory, hp, if_false] at h
        exact Or.inl ⟨_, (Option.some.inj h).symm⟩
      | some q =>
        by_cases hq : q < 1
        · simp only [UserStakeHistory, hp, hq, if_false, if_true] at h
          exact Or.inl ⟨_, (Option.some.inj h).symm⟩
        · have hp1 : 1 ≤ p := by omega
          have hq1 : 1 ≤ q := by omega
          cases hhit : (cache.Get clk.atCheck address).2.1 with
          | true =>
            rw [UserStakeHistory_hit services cache clk address p q hp1 hq1 hhit] at h
            exact Or.inr (Or.inr (hread _ _ _ _ h))
          | false =>
            cases hsvc : services.UserStakeHistory address with
            | error err =>
              rw [UserStakeHistory_miss_error services cache clk address p q err hp1 hq1
                hhit hsvc] at h
              exact Or.inr (Or.inl ⟨err, (Option.some.inj h).symm⟩)
            | ok s =>
              rw [UserStakeHistory_miss_ok services cache clk address p q s hp1 hq1
                hhit hsvc] at h
              exact Or.inr (Or.inr (hread _ _ _ _ h))

/-! ## Claims on the effects of one run and of two runs -/

/-- C11. Every run of `UserStakeHistory`, whatever the request, the cache, the ledger and
the clock, makes at most one ledger query and at most one `Cache.Set`; a `Set` is made only
in a run whose ledger query was made and succeeded: never when the query fails and never
without a query. -/
theorem UserStakeHistory_effects (services : StackingContract) (cache : Cache) (clk : Clock)
    (address : String) (page pageSize : Option Int) :
    (UserStakeHistory services cache clk address page pageSize).calls.countP Call.isUpstream
      ≤ 1 ∧
    (UserStakeHistory services cache clk address page pageSize).calls.countP Call.isSet ≤ 1 ∧
    (∀ c, c ∈ (UserStakeHistory services cache clk address page pageSize).calls →
      c.isSet = true →
      Call.upstream address ∈ (UserStakeHistory services cache clk address page pageSize).calls
        ∧ ∃ s, services.UserStakeHistory address = .ok s ∧
          c = Call.cacheSet address (.payments (sortHistory s)) historyTTL) ∧
    ((∃ err, services.UserStakeHistory address = .error err) →
      (UserStakeHistory services cache clk address page pageSize).calls.countP Call.isSet
        = 0) ∧
    ((UserStakeHistory services cache clk address page pageSize).calls.countP Call.isUpstream
        = 0 →
      (UserStakeHistory services cache clk address page pageSize).calls.countP Call.isSet
        = 0) := by
  rcases UserStakeHistory_calls services cache clk address page pageSize with
    h | h | ⟨⟨err, herr⟩, h⟩ | ⟨s, hs, h⟩
  · rw [h]
    refine ⟨by decide, by decide, ?_, fun _ => rfl, fun _ => rfl⟩
    intro c hc
    simp at hc
  · rw [h]
    refine ⟨by simp [Call.isUpstream], by simp [Call.isSet], ?_, ?_, ?_⟩
    · intro c hc hset
      simp only [List.mem_cons, List.mem_singleton, List.not_mem_nil, or_false, or_self] at hc
      subst hc
      simp [Call.isSet] at hset
    · intro _
      simp [Call.isSet]
    · intro _
      simp [Call.isSet]
  · rw [h]
    refine ⟨by simp [Call.isUpstream], by simp [Call.isSet], ?_, ?_, ?_⟩
    · intro c hc hset
      simp only [List.mem_cons, List.mem_singleton, List.not_mem_nil, or_false] at hc
      rcases hc with rfl | rfl <;> simp [Call.isSet] at hset
    · intro _
      simp [Call.isSet]
    · intro _
      simp [Call.isSet]
  · rw [h]
    refine ⟨by simp [Call.isUpstream], by simp [Call.isSet], ?_, ?_, ?_⟩
    · intro c hc hset
      refine ⟨by simp, s, hs, ?_⟩
      simp only [List.mem_cons, List.mem_singleton, List.not_mem_nil, or_false] at hc
      rcases hc with rfl | rfl | rfl | rfl
      · simp [Call.isSet] at hset
      · simp [Call.isSet] at hset
      · rfl
      · simp [Call.isSet] at hset
    · rintro ⟨err, herr⟩
      rw [hs] at herr
      exact absurd herr (by simp)
    · intro h0
      simp [Call.isUpstream] at h0

/-- C12. Two runs for the same address, page and page size, the first on a cache miss with
a successful ledger query, the second on the cache the first one left and read back before
the entry expires: the second run makes no ledger query (its calls are two `Get`s), the two
runs together make exactly one, and the two replies are identical. -/
theorem UserStakeHistory_second_run (services : StackingContract) (cache : Cache)
    (clk1 clk2 : Clock) (address : String) (page pageSize : Int)
    (s : List GameHistoryPayment) (out1 out2 : Outcome)
    (hpage : 1 ≤ page) (hsize : 1 ≤ pageSize)
    (hmiss : (cache.Get clk1.atCheck address).2.1 = false)
    (hok : services.UserStakeHistory address = .ok s)
    (hmono1 : clk1.atRead ≤ clk2.atCheck) (hmono2 : clk2.atCheck ≤ clk2.atRead)
    (hwithin : clk2.atRead < clk1.atSet + historyTTL)
    (hout1 : out1 = UserStakeHistory services cache clk1 address (some page) (some pageSize))
    (hout2 : out2 = UserStakeHistory services out1.cache clk2 address (some page)
      (some pageSize)) :
    out2.calls = [Call.cacheGet address, Call.cacheGet address] ∧
    out2.calls.countP Call.isUpstream = 0 ∧
    (out1.calls ++ out2.calls).countP Call.isUpstream = 1 ∧
    out2.result = out1.result ∧
    out1.result = pageReply (sortHistory s) page pageSize := by
  let stored := (cache.Get clk1.atCheck address).2.2.Set clk1.atSet address
    (.payments (sortHistory s)) historyTTL
  have hview : ∀ t, t < clk1.atSet + historyTTL →
      stored.view t address = some (.payments (sortHistory s)) :=
    fun t ht => Cache.view_Set _ _ _ _ _ _ ht
  have hfound : ∀ t, t < clk1.atSet + historyTTL → (stored.Get t address).2.1 = true := by
    intro t ht
    rw [Cache.Get_flag, hview t ht]
    rfl
  have h1 : out1 = readAndReply stored clk1.atRead address page pageSize
      [Call.cacheGet address, Call.upstream address,
        Call.cacheSet address (.payments (sortHistory s)) historyTTL] := by
    rw [hout1]
    exact UserStakeHistory_miss_ok services cache clk1 address page pageSize s hpage hsize
      hmiss hok
  have hc1 : out1.cache = stored := by
    rw [h1, readAndReply_cache]
    exact Cache.Get_found _ _ _ (hfound _ (by omega))
  have hr1 : out1.result = pageReply (sortHistory s) page pageSize := by
    rw [h1]
    exact readAndReply_held _ _ _ _ _ _ _ (hview _ (by omega))
  have h2 : out2 = readAndReply stored clk2.atRead address page pageSize
      [Call.cacheGet address] := by
    rw [hout2, hc1]
    exact UserStakeHistory_hit services stored clk2 address page pageSize hpage hsize
      (hfound _ (by omega))
  have hr2 : out2.result = pageReply (sortHistory s) page pageSize := by
    rw [h2]
    exact readAndReply_held _ _ _ _ _ _ _ (hview _ (by omega))
  have hcalls2 : out2.calls = [Call.cacheGet address, Call.cacheGet address] := by
    rw [h2, readAndReply_calls]
    rfl
  have hcalls1 : out1.calls = [Call.cacheGet address, Call.upstream address,
      Call.cacheSet address (.payments (sortHistory s)) historyTTL,
      Call.cacheGet address] := by
    rw [h1, readAndReply_calls]
    rfl
  refine ⟨hcalls2, ?_, ?_, by rw [hr1, hr2], hr1⟩
  · rw [hcalls2]
    simp [Call.isUpstream]
  · rw [hcalls1, hcalls2]
    simp [Call.isUpstream]

/-- C12, at a concrete pair of runs: an empty cache, a ledger that returns the sample
sequence, and a second run one second after the first. -/
theorem UserStakeHistory_second_run_witness :
    ∃ out1 out2 : Outcome,
      out1 = UserStakeHistory (sampleService (.ok sampleHistory)) NewCache sampleClock
        sampleAddress (some 1) (some 2) ∧
      out2 = UserStakeHistory (sampleService (.ok sampleHistory)) out1.cache laterClock
        sampleAddress (some 1) (some 2) ∧
      out2.calls = [Call.cacheGet sampleAddress, Call.cacheGet sampleAddress] ∧
      out2.calls.countP Call.isUpstream = 0 ∧
      (out1.calls ++ out2.calls).countP Call.isUpstream = 1 ∧
      out2.result = out1.result ∧
      out1.result = pageReply (sortHistory sampleHistory) 1 2 :=
  ⟨_, _, rfl, rfl,
    UserStakeHistory_second_run (sampleService (.ok sampleHistory)) NewCache sampleClock
      laterClock sampleAddress 1 2 sampleHistory _ _ (by decide) (by decide) (by decide) rfl
      (by decide) (by decide) (by decide) rfl rfl⟩

/-! ## Claims on the replies -/

/-- C13, the code at a failing input. The ledger returns one record on a cache miss and the
request is page 2147483649 of size 4294967296, both valid `int` values at least 1. Both
index products wrap to negative numbers, the range checks pass, the slice expression
`res[startIndex:endIndex]` panics and the handler writes none of the five replies. -/
theorem UserStakeHistory_overflow_panic :
    (1 : Int) ≤ 2147483649 ∧ (2147483649 : Int) < 2 ^ 63 ∧
    (1 : Int) ≤ 4294967296 ∧ (4294967296 : Int) < 2 ^ 63 ∧
    (UserStakeHistory (sampleService (.ok [⟨1, 10, 5⟩])) NewCache sampleClock sampleAddress
        (some 2147483649) (some 4294967296)).result = none := by
  refine ⟨by norm_num, by norm_num, by norm_num, by norm_num, ?_⟩
  rw [UserStakeHistory_held (sampleService (.ok [⟨1, 10, 5⟩])) NewCache
    (NewCache.Set sampleClock.atSet sampleAddress (.payments (sortHistory [⟨1, 10, 5⟩]))
      historyTTL) sampleClock sampleAddress 2147483649 4294967296
    [Call.cacheGet sampleAddress, Call.upstream sampleAddress,
      Call.cacheSet sampleAddress (.payments (sortHistory [⟨1, 10, 5⟩])) historyTTL]
    (sortHistory [⟨1, 10, 5⟩]) (by norm_num) (by norm_num)
    (populate_miss_ok _ _ _ _ [⟨1, 10, 5⟩] (by decide) rfl) (by decide)]
  decide

/-- C14, refuted as stated: the `NoData` reply (a ledger with zero records) and the
`PageOutOfRange` reply (page 4 of three records) carry the same HTTP status, 400, as the
`InvalidParameter` reply (page 0) and the `UpstreamFailure` reply (a ledger that is down). -/
theorem UserStakeHistory_empty_results_are_400 :
    ∃ noData outOfRange invalid failure : Response,
      (UserStakeHistory (sampleService (.ok [])) NewCache sampleClock sampleAddress
        (some 1) (some 10)).result = some noData ∧ noData.kind = .NoData ∧
      (UserStakeHistory (sampleService (.ok sampleHistory)) NewCache sampleClock sampleAddress
        (some 4) (some 1)).result = some outOfRange ∧ outOfRange.kind = .PageOutOfRange ∧
      (UserStakeHistory (sampleService (.ok sampleHistory)) NewCache sampleClock sampleAddress
        (some 0) (some 10)).result = some invalid ∧ invalid.kind = .InvalidParameter ∧
      (UserStakeHistory (sampleService (.error "node down")) NewCache sampleClock
        sampleAddress (some 1) (some 10)).result = some failure ∧
        failure.kind = .UpstreamFailure ∧
      noData.code = invalid.code ∧ noData.code = failure.code ∧
      outOfRange.code = invalid.code ∧ outOfRange.code = failure.code ∧
      noData.code = StatusBadRequest := by
  refine ⟨⟨.NoData, StatusBadRequest,
      .ok "failed no game data for provided gid" (.sessions [])⟩,
    ⟨.PageOutOfRange, StatusBadRequest, .ok "failed no new page" (.sessions [])⟩,
    ⟨.InvalidParameter, StatusBadRequest, .fail "fail" "Invalid page number"⟩,
    ⟨.UpstreamFailure, StatusBadRequest, .fail "fail" "node down"⟩,
    ?_, rfl, ?_, rfl, rfl, rfl, ?_, rfl, rfl, rfl, rfl, rfl, rfl⟩
  · rw [UserStakeHistory_held (sampleService (.ok [])) NewCache
      (NewCache.Set sampleClock.atSet sampleAddress (.payments (sortHistory [])) historyTTL)
      sampleClock sampleAddress 1 10
      [Call.cacheGet sampleAddress, Call.upstream sampleAddress,
        Call.cacheSet sampleAddress (.payments (sortHistory [])) historyTTL]
      (sortHistory []) (by norm_num) (by norm_num)
      (populate_miss_ok _ _ _ _ [] (by decide) rfl) (by decide)]
    decide
  · rw [UserStakeHistory_held (sampleService (.ok sampleHistory)) NewCache
      (NewCache.Set sampleClock.atSet sampleAddress (.payments (sortHistory sampleHistory))
        historyTTL)
      sampleClock sampleAddress 4 1
      [Call.cacheGet sampleAddress, Call.upstream sampleAddress,
        Call.cacheSet sampleAddress (.payments (sortHistory sampleHistory)) historyTTL]
      (sortHistory sampleHistory) (by norm_num) (by norm_num)
      (populate_miss_ok _ _ _ _ sampleHistory (by decide) rfl) (by decide)]
    decide
  · rw [UserStakeHistory_miss_error (sampleService (.error "node down")) NewCache sampleClock
      sampleAddress 1 10 "node down" (by norm_num) (by norm_num) (by decide) rfl]

/-- C14, amended. Every reply other than `Success` carries HTTP status 400: `NoData` and
`PageOutOfRange` as much as `InvalidParameter` and `UpstreamFailure`; only `Success` carries
200. The empty results are told from the failures by the body: a `GameHistoryResOk` with
status text "failed no game data for provided gid" or "failed no new page" and an empty
page, against a `GameHistoryResFail` with status text "fail" and a message. -/
theorem UserStakeHistory_reply_status (services : StackingContract) (cache : Cache)
    (clk : Clock) (address : String) (page pageSize : Option Int) (r : Response)
    (h : (UserStakeHistory services cache clk address page pageSize).result = some r) :
    (r.kind = .NoData → r.code = 400 ∧
      r.body = .ok "failed no game data for provided gid" (.sessions [])) ∧
    (r.kind = .PageOutOfRange → r.code = 400 ∧
      r.body = .ok "failed no new page" (.sessions [])) ∧
    (r.kind = .InvalidParameter → r.code = 400 ∧ ∃ msg, r.body = .fail "fail" msg) ∧
    (r.kind = .UpstreamFailure → r.code = 400 ∧ ∃ msg, r.body = .fail "fail" msg) ∧
    (r.kind = .Success → r.code = 200 ∧ ∃ window, r.body = .ok "success" (.payments window)) ∧
    (r.code = 200 ↔ r.kind = .Success) := by
  rcases UserStakeHistory_result services cache clk address page pageSize r h with
    ⟨msg, rfl⟩ | ⟨err, rfl⟩ | rfl | rfl | ⟨window, rfl⟩
  all_goals simp [StatusBadRequest, StatusOK]

/-- C14, amended, at a concrete run: the reply to page 1 for an address without records. -/
theorem UserStakeHistory_reply_status_witness :
    (⟨.NoData, StatusBadRequest,
        .ok "failed no game data for provided gid" (.sessions [])⟩ : Response).code = 400 ∧
      (⟨.NoData, StatusBadRequest,
        .ok "failed no game data for provided gid" (.sessions [])⟩ : Response).body
        = .ok "failed no game data for provided gid" (.sessions []) :=
  (UserStakeHistory_reply_status (sampleService (.ok [])) NewCache sampleClock
    sampleAddress (some 1) (some 10)
    ⟨.NoData, StatusBadRequest, .ok "failed no game data for provided gid" (.sessions [])⟩
    (by decide)).1 rfl

/-! ## Claims on the ledger collaborator -/

/-- C15. When the ledger query fails with error text `e`, each handler surfaces it verbatim
and does not retry. For every service whose history query fails with `e`, `UserStakeHistory`
on a cache miss writes a failure with `Status` "fail" and `Message` exactly `e` after the
calls `Get` and one query. For every service whose total query fails with `e`, whatever its
history query does, `UserTotalStake` writes a failure with `Status` "fail" and `Message`
exactly `e` after one query, and leaves the cache as it was. -/
theorem upstream_error_verbatim :
    (∀ (services : StackingContract) (cache : Cache) (clk : Clock) (address : String)
      (page pageSize : Int) (e : String), 1 ≤ page → 1 ≤ pageSize →
      (cache.Get clk.atCheck address).2.1 = false →
      services.UserStakeHistory address = .error e →
      (UserStakeHistory services cache clk address (some page) (some pageSize)).result
        = some ⟨.UpstreamFailure, StatusBadRequest, .fail "fail" e⟩ ∧
      (UserStakeHistory services cache clk address (some page) (some pageSize)).calls
        = [Call.cacheGet address, Call.upstream address]) ∧
    (∀ (services : StackingContract) (cache : Cache) (address : String) (e : String),
      services.UserTotal address = .error e →
      (UserTotalStake services cache address).result
        = some ⟨.UpstreamFailure, StatusBadRequest, .fail "fail" e⟩ ∧
      (UserTotalStake services cache address).calls = [Call.upstreamTotal address] ∧
      (UserTotalStake services cache address).cache = cache) := by
  refine ⟨?_, ?_⟩
  · intro services cache clk address page pageSize e hpage hsize hmiss hhistory
    rw [UserStakeHistory_miss_error services cache clk address page pageSize e hpage hsize
      hmiss hhistory]
    exact ⟨rfl, rfl⟩
  · intro services cache address e htotal
    simp [UserTotalStake, htotal]

/-- C15, at concrete runs: an empty cache and a ledger whose history query fails while its
total query succeeds, and a ledger whose total query fails while its history query
succeeds. -/
theorem upstream_error_verbatim_witness :
    ((UserStakeHistory ⟨fun _ => .ok 750, fun _ => .error "node down"⟩
        NewCache sampleClock sampleAddress (some 1) (some 20)).result
      = some ⟨.UpstreamFailure, StatusBadRequest, .fail "fail" "node down"⟩ ∧
    (UserStakeHistory ⟨fun _ => .ok 750, fun _ => .error "node down"⟩
        NewCache sampleClock sampleAddress (some 1) (some 20)).calls
      = [Call.cacheGet sampleAddress, Call.upstream sampleAddress]) ∧
    ((UserTotalStake ⟨fun _ => .error "execution reverted", fun _ => .ok sampleHistory⟩
        (sampleCache sampleHistory) sampleAddress).result
      = some ⟨.UpstreamFailure, StatusBadRequest, .fail "fail" "execution reverted"⟩ ∧
    (UserTotalStake ⟨fun _ => .error "execution reverted", fun _ => .ok sampleHistory⟩
        (sampleCache sampleHistory) sampleAddress).calls
      = [Call.upstreamTotal sampleAddress] ∧
    (UserTotalStake ⟨fun _ => .error "execution reverted", fun _ => .ok sampleHistory⟩
        (sampleCache sampleHistory) sampleAddress).cache = sampleCache sampleHistory) :=
  ⟨upstream_error_verbatim.1 ⟨fun _ => .ok 750, fun _ => .error "node down"⟩
      NewCache sampleClock sampleAddress 1 20 "node down" (by decide) (by decide) (by decide)
      rfl,
    upstream_error_verbatim.2 ⟨fun _ => .error "execution reverted", fun _ => .ok sampleHistory⟩
      (sampleCache sampleHistory) sampleAddress "execution reverted" rfl⟩

/-- C16. When the ledger's `UserTotal` succeeds for the address, `UserTotalStake` writes
exactly that total with status 200; whatever the ledger answers, the handler makes the one
ledger call and no cache call, and leaves the cache as it was. The service asks the contract
for the total of the converted address and hands the answer on unchanged. -/
theorem UserTotalStake_total (services : StackingContract) (cache : Cache) (address : String)
    (total : Nat) (hok : services.UserTotal address = .ok total) :
    (UserTotalStake services cache address).result
      = some ⟨.Success, StatusOK, .total total⟩ ∧
    (UserTotalStake services cache address).calls = [Call.upstreamTotal address] ∧
    (∀ (other : StackingContract) (c : Cache) (a : String),
      (UserTotalStake other c a).cache = c ∧
      (UserTotalStake other c a).calls.countP Call.isCache = 0) ∧
    (∀ (HexToAddress : String → Nat) (contract : GameHistory) (c : Cache) (a : String)
      (n : Nat), contract.UserTotal (HexToAddress a) = .ok n →
      (UserTotalStake (NewStakingHistory HexToAddress contract) c a).result
        = some ⟨.Success, StatusOK, .total n⟩) := by
  refine ⟨by simp [UserTotalStake, hok], by simp [UserTotalStake, hok], ?_, ?_⟩
  · intro other c a
    unfold UserTotalStake
    cases other.UserTotal a <;> exact ⟨rfl, rfl⟩
  · intro HexToAddress contract c a n hn
    simp [UserTotalStake, NewStakingHistory, stakeHistory.UserTotal, hn]

/-- C16, at a concrete run: a ledger that reports a total of 750. -/
theorem UserTotalStake_total_witness :
    (UserTotalStake (sampleTotalService (.ok 750)) (sampleCache sampleHistory)
        sampleAddress).result = some ⟨.Success, StatusOK, .total 750⟩ ∧
    (UserTotalStake (sampleTotalService (.ok 750)) (sampleCache sampleHistory)
        sampleAddress).calls = [Call.upstreamTotal sampleAddress] :=
  ⟨(UserTotalStake_total (sampleTotalService (.ok 750)) (sampleCache sampleHistory)
      sampleAddress 750 rfl).1,
    (UserTotalStake_total (sampleTotalService (.ok 750)) (sampleCache sampleHistory)
      sampleAddress 750 rfl).2.1⟩

/-! ## Claims on the cache -/

/-- C17. After `Set(k, v, ttl)` at time `t0`, as long as the entry under `k` is the one that
`Set` stored (no other `Set` or removal of `k`), `Get(k)` returns `(v, true)` at every time
`now < t0 + ttl` and `found = false` at every time `now ≥ t0 + ttl`, the instant
`now = t0 + ttl` included. -/
theorem Cache.Set_Get_expiry (c later : Cache) (k : String) (v : Dyn) (ttl t0 now : Nat)
    (hkept : later k = (c.Set t0 k v ttl) k) :
    (now < t0 + ttl → (later.Get now k).1 = some v ∧ (later.Get now k).2.1 = true) ∧
    (t0 + ttl ≤ now → (later.Get now k).1 = none ∧ (later.Get now k).2.1 = false) ∧
    ((later.Get (t0 + ttl) k).2.1 = false) := by
  rw [Cache.Set_same] at hkept
  refine ⟨?_, ?_, ?_⟩
  · intro h
    have : ¬ (t0 + ttl ≤ now) := by omega
    simp [Cache.Get, hkept, this]
  · intro h
    simp [Cache.Get, hkept, h]
  · simp [Cache.Get, hkept]

/-- C17, at a concrete cache: the sample sequence stored at time zero for 6 minutes, read
one nanosecond before the expiry, at the expiry and after a `Get` of another key. -/
theorem Cache.Set_Get_expiry_witness :
    ((sampleCache sampleHistory).Get 359999999999 sampleAddress).1
      = some (.payments sampleHistory) ∧
    ((sampleCache sampleHistory).Get 360000000000 sampleAddress).2.1 = false ∧
    ((((sampleCache sampleHistory).Get 5 "0x02").2.2).Get 360000000000 sampleAddress).2.1
      = false :=
  ⟨((Cache.Set_Get_expiry NewCache (sampleCache sampleHistory) sampleAddress
      (.payments sampleHistory) historyTTL 0 359999999999 rfl).1 (by decide)).1,
    (Cache.Set_Get_expiry NewCache (sampleCache sampleHistory) sampleAddress
      (.payments sampleHistory) historyTTL 0 360000000000 rfl).2.2,
    (Cache.Set_Get_expiry NewCache (((sampleCache sampleHistory).Get 5 "0x02").2.2)
      sampleAddress (.payments sampleHistory) historyTTL 0 360000000000 (by decide)).2.2⟩

/-- C18. On a cache hit the handler sorts nothing: whatever the order of the cached sequence
`res`, the reply is the one `pageReply` computes from `res` as stored, and for a page that
starts inside `res` it is `Success` with the records of `res` at the window's positions, in
their stored order; the calls are two `Get`s. -/
theorem UserStakeHistory_hit_unsorted (services : StackingContract) (cache : Cache)
    (clk : Clock) (address : String) (page pageSize : Nat) (res : List GameHistoryPayment)
    (hpage : 1 ≤ page) (hsize : 1 ≤ pageSize) (hint : pageSize < 2 ^ 63)
    (hhit : (cache.Get clk.atCheck address).2.1 = true)
    (hheld : cache.view clk.atRead address = some (.payments res))
    (hlen : res.length ≤ 2 ^ 62) (hstart : (page - 1) * pageSize < res.length) :
    (UserStakeHistory services cache clk address (some (page : Int))
        (some (pageSize : Int))).result = pageReply res page pageSize ∧
    (UserStakeHistory services cache clk address (some (page : Int))
        (some (pageSize : Int))).result
      = some ⟨.Success, StatusOK, .ok "success"
          (.payments ((res.drop ((page - 1) * pageSize)).take
            (min (page * pageSize) res.length - (page - 1) * pageSize)))⟩ ∧
    (UserStakeHistory services cache clk address (some (page : Int))
        (some (pageSize : Int))).calls = [Call.cacheGet address, Call.cacheGet address] ∧
    (UserStakeHistory services cache clk address (some (page : Int))
        (some (pageSize : Int))).cache address = cache address := by
  have hp : (1 : Int) ≤ (page : Int) := by exact_mod_cast hpage
  have hq : (1 : Int) ≤ (pageSize : Int) := by exact_mod_cast hsize
  have hrun := UserStakeHistory_hit services cache clk address page pageSize hp hq hhit
  have hres := UserStakeHistory_held services cache cache clk address page pageSize
    [Call.cacheGet address] res hp hq (populate_hit services cache clk address hhit) hheld
  refine ⟨hres, ?_, ?_, ?_⟩
  · rw [hres]
    exact pageReply_window res page pageSize hpage hint hlen hstart
  · rw [hrun, readAndReply_calls]
    rfl
  · rw [hrun, readAndReply_cache]
    have hflag := Cache.Get_flag cache clk.atRead address
    rw [hheld] at hflag
    rw [Cache.Get_found cache clk.atRead address (by simpa using hflag)]

/-- C18, at a concrete run: the cache holds the sample sequence unsorted (times 5, 10, 5)
and page 1 of size 10 returns it in exactly that order, not in the sorted one. -/
theorem UserStakeHistory_hit_unsorted_witness :
    (UserStakeHistory (sampleService (.ok [])) (sampleCache sampleHistory) sampleClock
        sampleAddress (some ((1 : Nat) : Int)) (some ((10 : Nat) : Int))).result
      = some ⟨.Success, StatusOK, .ok "success"
          (.payments [⟨1, 10, 5⟩, ⟨2, 20, 10⟩, ⟨3, 30, 5⟩])⟩ ∧
    sortHistory sampleHistory ≠ [⟨1, 10, 5⟩, ⟨2, 20, 10⟩, ⟨3, 30, 5⟩] :=
  ⟨(UserStakeHistory_hit_unsorted (sampleService (.ok [])) (sampleCache sampleHistory)
      sampleClock sampleAddress 1 10 sampleHistory (by decide) (by decide) (by norm_num)
      (by decide) (by decide) (by decide) (by decide)).2.1,
    by decide⟩

/-! ## Pages as a partition -/

/-- The first `j` windows of width `pageSize` laid end to end are the first `j * pageSize`
records. -/
theorem windows_flatten (res : List GameHistoryPayment) (pageSize j : Nat) :
    ((List.range j).map (fun i => (res.drop (i * pageSize)).take pageSize)).flatten
      = res.take (j * pageSize) := by
  induction j with
  | zero => simp
  | succ j ih =>
    rw [List.range_succ, List.map_append, List.flatten_append, ih, Nat.succ_mul,
      List.take_add]
    simp

/-- Page `k` is one of the pages `1..ceil(n/pageSize)` exactly when it starts inside the
sequence. -/
theorem page_le_ceil (n pageSize k : Nat) (hsize : 1 ≤ pageSize) (hk : 1 ≤ k) (hn : 1 ≤ n) :
    k ≤ (n + pageSize - 1) / pageSize ↔ (k - 1) * pageSize < n := by
  rw [Nat.le_div_iff_mul_le (by omega)]
  obtain ⟨j, rfl⟩ : ∃ j, k = j + 1 := ⟨k - 1, by omega⟩
  simp only [Nat.add_sub_cancel, Nat.succ_mul]
  omega

/-- Without overflow the pages partition the sequence: for a non-empty `res` of `n` records
and `pageSize ≥ 1`, each page `k` of `1..ceil(n/pageSize)` is `Success` with the window of
width `pageSize` at `(k-1)*pageSize`, which is not empty and is full unless `k` is the last
page; the windows laid end to end are `res`; and every later page whose start index fits an
`int` is `PageOutOfRange`. -/
theorem pages_partition (res : List GameHistoryPayment) (pageSize : Nat)
    (hsize : 1 ≤ pageSize) (hint : pageSize < 2 ^ 63) (hlen : res.length ≤ 2 ^ 62)
    (hne : res ≠ []) :
    (∀ k : Nat, 1 ≤ k → k ≤ (res.length + pageSize - 1) / pageSize →
      pageReply res k pageSize = some ⟨.Success, StatusOK, .ok "success"
        (.payments ((res.drop ((k - 1) * pageSize)).take pageSize))⟩ ∧
      (res.drop ((k - 1) * pageSize)).take pageSize ≠ [] ∧
      (k < (res.length + pageSize - 1) / pageSize →
        ((res.drop ((k - 1) * pageSize)).take pageSize).length = pageSize)) ∧
    ((List.range ((res.length + pageSize - 1) / pageSize)).map
      (fun i => (res.drop (i * pageSize)).take pageSize)).flatten = res ∧
    (∀ k : Nat, (res.length + pageSize - 1) / pageSize < k →
      (k - 1) * pageSize < 2 ^ 63 →
      pageReply res k pageSize = some ⟨.PageOutOfRange, StatusBadRequest,
        .ok "failed no new page" (.sessions [])⟩) := by
  have hn : 1 ≤ res.length := by
    rcases Nat.eq_zero_or_pos res.length with h | h
    · exact absurd (List.length_eq_zero.mp h) hne
    · exact h
  have hceil : ∀ k, 1 ≤ k →
      (k ≤ (res.length + pageSize - 1) / pageSize ↔ (k - 1) * pageSize < res.length) :=
    fun k hk => page_le_ceil res.length pageSize k hsize hk hn
  generalize (res.length + pageSize - 1) / pageSize = m at hceil ⊢
  refine ⟨?_, ?_, ?_⟩
  · intro k hk hkm
    have hstart := (hceil k hk).mp hkm
    have hmul : k * pageSize = (k - 1) * pageSize + pageSize := by
      obtain ⟨j, rfl⟩ : ∃ j, k = j + 1 := ⟨k - 1, by omega⟩
      simp [Nat.succ_mul]
    have hwin : (res.drop ((k - 1) * pageSize)).take
          (min (k * pageSize) res.length - (k - 1) * pageSize)
        = (res.drop ((k - 1) * pageSize)).take pageSize := by
      rw [List.take_eq_take, List.length_drop]
      omega
    refine ⟨?_, ?_, ?_⟩
    · rw [pageReply_window res k pageSize hk hint hlen hstart, hwin]
    · intro hnil
      have := congrArg List.length hnil
      simp only [List.length_take, List.length_drop, List.length_nil] at this
      omega
    · intro hlt
      have hnext := (hceil (k + 1) (by omega)).mp (by omega)
      simp only [Nat.add_sub_cancel] at hnext
      simp only [List.length_take, List.length_drop]
      omega
  · rw [windows_flatten]
    apply List.take_of_length_le
    rcases Nat.lt_or_ge (m * pageSize) res.length with hlt | hge
    · exfalso
      have hnext := (hceil (m + 1) (by omega)).mpr (by simpa using hlt)
      omega
    · exact hge
  · intro k hk hfit
    have hk1 : 1 ≤ k := by omega
    have hnot : ¬ ((k - 1) * pageSize < res.length) := by
      intro h
      have := (hceil k hk1).mpr h
      omega
    exact pageReply_out_of_range res k pageSize hk1 hne hfit (by omega)

/-! ## Claims on pages and index arithmetic -/

/-- C19, the code at a failing input. Three records are cached and the page size is
4294967296, so there is `ceil(3/4294967296) = 1` page. Page 4294967297 lies beyond it, yet
its start index `(page-1)*pageSize = 2^64` wraps to 0 and the reply is `Success` with all
three records instead of `PageOutOfRange`. -/
theorem UserStakeHistory_page_beyond_last :
    (sampleHistory.length + 4294967296 - 1) / 4294967296 = 1 ∧
    (1 : Int) < 4294967297 ∧ (4294967297 : Int) < 2 ^ 63 ∧ (4294967296 : Int) < 2 ^ 63 ∧
    wrapInt ((4294967297 - 1) * 4294967296) = 0 ∧
    (UserStakeHistory (sampleService (.ok [])) (sampleCache sampleHistory) sampleClock
        sampleAddress (some 4294967297) (some 4294967296)).result
      = some ⟨.Success, StatusOK, .ok "success" (.payments sampleHistory)⟩ := by
  refine ⟨by decide, by norm_num, by norm_num, by norm_num, by decide, ?_⟩
  rw [UserStakeHistory_held (sampleService (.ok [])) (sampleCache sampleHistory)
    (sampleCache sampleHistory) sampleClock sampleAddress 4294967297 4294967296
    [Call.cacheGet sampleAddress] sampleHistory (by norm_num) (by norm_num)
    (populate_hit _ _ _ _ (by decide)) (by decide)]
  decide

/-- C20, the code at a failing input. With three cached records, page 2147483649 and page
size 4294967296 (both at least 1 and valid `int` values), `startIndex` wraps to `-2^63`
and `endIndex` to `-2^63 + 2^32`: the check `startIndex >= len(res)` does not stop the run,
`endIndex` is not clamped, the slice expression is reached with a negative `startIndex`,
and it panics. -/
theorem UserStakeHistory_slice_out_of_range :
    (1 : Int) ≤ 2147483649 ∧ (2147483649 : Int) < 2 ^ 63 ∧
    (1 : Int) ≤ 4294967296 ∧ (4294967296 : Int) < 2 ^ 63 ∧
    wrapInt ((2147483649 - 1) * 4294967296) = -9223372036854775808 ∧
    wrapInt (2147483649 * 4294967296) = -9223372036854775808 + 4294967296 ∧
    ¬ (wrapInt ((2147483649 - 1) * 4294967296) ≥ (sampleHistory.length : Int)) ∧
    ¬ (wrapInt (2147483649 * 4294967296) > (sampleHistory.length : Int)) ∧
    ¬ (0 ≤ wrapInt ((2147483649 - 1) * 4294967296)) ∧
    sliceExpr sampleHistory (wrapInt ((2147483649 - 1) * 4294967296))
      (wrapInt (2147483649 * 4294967296)) = none ∧
    pageReply sampleHistory 2147483649 4294967296 = none ∧
    (UserStakeHistory (sampleService (.ok [])) (sampleCache sampleHistory) sampleClock
        sampleAddress (some 2147483649) (some 4294967296)).result = none := by
  refine ⟨by norm_num, by norm_num, by norm_num, by norm_num, by decide, by decide,
    by decide, by decide, by decide, by decide, by decide, ?_⟩
  rw [UserStakeHistory_held (sampleService (.ok [])) (sampleCache sampleHistory)
    (sampleCache sampleHistory) sampleClock sampleAddress 2147483649 4294967296
    [Call.cacheGet sampleAddress] sampleHistory (by norm_num) (by norm_num)
    (populate_hit _ _ _ _ (by decide)) (by decide)]
  decide

/-! ## The cache after a run -/

/-- A `Get` leaves the entries of the other keys alone. -/
theorem Cache.Get_other (c : Cache) (now : Nat) (key k : String) (hk : k ≠ key) :
    (c.Get now key).2.2 k = c k := by
  rcases Cache.Get_cache c now key with h | h
  · rw [h]
  · rw [h]
    simp [Cache.remove, hk]

/-- A `Set` leaves the entries of the other keys alone. -/
theorem Cache.Set_other (c : Cache) (now : Nat) (key k : String) (value : Dyn) (ttl : Nat)
    (hk : k ≠ key) : (c.Set now key value ttl) k = c k := by
  simp [Cache.Set, hk]

/-- The cache a run leaves, path by path. -/
theorem UserStakeHistory_cache (services : StackingContract) (cache : Cache) (clk : Clock)
    (address : String) (page pageSize : Option Int) :
    (UserStakeHistory services cache clk address page pageSize).cache = cache ∨
    (UserStakeHistory services cache clk address page pageSize).cache
      = (cache.Get clk.atRead address).2.2 ∨
    (UserStakeHistory services cache clk address page pageSize).cache
      = (cache.Get clk.atCheck address).2.2 ∨
    ∃ s, (UserStakeHistory services cache clk address page pageSize).cache
      = (((cache.Get clk.atCheck address).2.2.Set clk.atSet address
          (.payments (sortHistory s)) historyTTL).Get clk.atRead address).2.2 := by
  cases page with
  | none => exact Or.inl rfl
  | some p =>
    by_cases hp : p < 1
    · exact Or.inl (by simp [UserStakeHistory, hp])
    · cases pageSize with
      | none => exact Or.inl (by simp [UserStakeHistory, hp])
      | some q =>
        by_cases hq : q < 1
        · exact Or.inl (by simp [UserStakeHistory, hp, hq])
        · have hp1 : 1 ≤ p := by omega
          have hq1 : 1 ≤ q := by omega
          cases hhit : (cache.Get clk.atCheck address).2.1 with
          | true =>
            rw [UserStakeHistory_hit services cache clk address p q hp1 hq1 hhit,
              readAndReply_cache]
            exact Or.inr (Or.inl rfl)
          | false =>
            cases hsvc : services.UserStakeHistory address with
            | error err =>
              rw [UserStakeHistory_miss_error services cache clk address p q err hp1 hq1
                hhit hsvc]
              exact Or.inr (Or.inr (Or.inl rfl))
            | ok s =>
              rw [UserStakeHistory_miss_ok services cache clk address p q s hp1 hq1
                hhit hsvc, readAndReply_cache]
              exact Or.inr (Or.inr (Or.inr ⟨s, rfl⟩))

/-- A run changes no entry of a key other than the requested address. -/
theorem UserStakeHistory_cache_other (services : StackingContract) (cache : Cache)
    (clk : Clock) (address : String) (page pageSize : Option Int) (k : String)
    (hk : k ≠ address) :
    (UserStakeHistory services cache clk address page pageSize).cache k = cache k := by
  rcases UserStakeHistory_cache services cache clk address page pageSize with
    h | h | h | ⟨s, h⟩
  · rw [h]
  · rw [h, Cache.Get_other _ _ _ _ hk]
  · rw [h, Cache.Get_other _ _ _ _ hk]
  · rw [h, Cache.Get_other _ _ _ _ hk, Cache.Set_other _ _ _ _ _ _ hk,
      Cache.Get_other _ _ _ _ hk]

/-- A `Get` keeps a cache of payment sequences one. -/
theorem OnlyPayments.Get (c : Cache) (now : Nat) (key : String) (h : OnlyPayments c) :
    OnlyPayments (c.Get now key).2.2 :=
  fun k e hk => h k e (Cache.Get_sub c now key k e hk)

/-- A `Set` of a payment sequence keeps a cache of payment sequences one. -/
theorem OnlyPayments.Set (c : Cache) (now : Nat) (key : String)
    (ps : List GameHistoryPayment) (ttl : Nat) (h : OnlyPayments c) :
    OnlyPayments (c.Set now key (.payments ps) ttl) := by
  intro k e hk
  by_cases hkey : k = key
  · subst hkey
    rw [Cache.Set_same] at hk
    cases hk
    exact ⟨ps, rfl⟩
  · rw [Cache.Set_other _ _ _ _ _ _ hkey] at hk
    exact h k e hk

/-- A run of the history handler keeps a cache of payment sequences one. -/
theorem OnlyPayments.history (services : StackingContract) (cache : Cache) (clk : Clock)
    (address : String) (page pageSize : Option Int) (h : OnlyPayments cache) :
    OnlyPayments (UserStakeHistory services cache clk address page pageSize).cache := by
  rcases UserStakeHistory_cache services cache clk address page pageSize with
    hc | hc | hc | ⟨s, hc⟩
  · rw [hc]; exact h
  · rw [hc]; exact OnlyPayments.Get _ _ _ h
  · rw [hc]; exact OnlyPayments.Get _ _ _ h
  · rw [hc]
    exact OnlyPayments.Get _ _ _ (OnlyPayments.Set _ _ _ _ _ (OnlyPayments.Get _ _ _ h))

/-- Every cache written by the stake handlers alone is a cache of payment sequences. -/
theorem Reachable.onlyPayments (cache : Cache) (h : Reachable cache) : OnlyPayments cache := by
  induction h with
  | init =>
    intro k e hk
    simp [NewCache] at hk
  | history services cache clk address page pageSize _ ih =>
    exact OnlyPayments.history services cache clk address page pageSize ih
  | total services cache address _ ih =>
    have hc : (UserTotalStake services cache address).cache = cache := by
      unfold UserTotalStake
      cases services.UserTotal address <;> rfl
    rw [hc]; exact ih

/-- The populate stage keeps a cache of payment sequences one. -/
theorem OnlyPayments.populate (services : StackingContract) (cache : Cache) (clk : Clock)
    (address : String) (h : OnlyPayments cache) :
    OnlyPayments (populate services cache clk address).2.1 := by
  cases hhit : (cache.Get clk.atCheck address).2.1 with
  | true => rw [populate_hit _ _ _ _ hhit]; exact h
  | false =>
    cases hsvc : services.UserStakeHistory address with
    | error err =>
      rw [populate_miss_error _ _ _ _ err hhit hsvc]
      exact OnlyPayments.Get _ _ _ h
    | ok s =>
      rw [populate_miss_ok _ _ _ _ s hhit hsvc]
      exact OnlyPayments.Set _ _ _ _ _ (OnlyPayments.Get _ _ _ h)

/-- What a `Get` reports from a cache of payment sequences is nil or a payment sequence. -/
theorem OnlyPayments.value (c : Cache) (now : Nat) (key : String) (h : OnlyPayments c) :
    (c.Get now key).1 = none ∨ ∃ ps, (c.Get now key).1 = some (.payments ps) := by
  have hv := Cache.view_eq c now key
  unfold Cache.view at hv
  rw [hv]
  cases hk : c key with
  | none => exact Or.inl rfl
  | some e =>
    by_cases hx : e.expiresAt ≤ now
    · exact Or.inl (by simp [hx])
    · obtain ⟨ps, hps⟩ := h key e hk
      exact Or.inr ⟨ps, by simp [hx, hps]⟩

/-- The type assertion of line 167 is unchecked: read back a value of another dynamic type
and the run panics. -/
theorem readAndReply_foreign (cache : Cache) (now : Nat) (address : String)
    (page pageSize : Int) (calls : List Call) (v : Dyn)
    (hheld : cache.view now address = some v) (hv : ∀ ps, v ≠ .payments ps) :
    (readAndReply cache now address page pageSize calls).result = none := by
  simp only [readAndReply]
  unfold Cache.view at hheld
  rw [hheld]
  cases v with
  | payments ps => exact absurd rfl (hv ps)
  | sessions ss => rfl
  | other name => rfl

/-- The type assertion of line 167 applied to nil: a read-back that finds nothing panics. -/
theorem readAndReply_nil (cache : Cache) (now : Nat) (address : String)
    (page pageSize : Int) (calls : List Call)
    (hheld : cache.view now address = none) :
    (readAndReply cache now address page pageSize calls).result = none := by
  simp only [readAndReply]
  unfold Cache.view at hheld
  rw [hheld]

/-! ## Claims on the type assertion and the read-back -/

/-- C21, refuted as stated. The cache is untyped and shared: with a game-session sequence
stored under the key "7", a request for the address "7" finds the key at the first `Get`,
reads the sessions back at line 166, and the type assertion of line 167 fails on a value of
another type: the run panics after two `Get`s. -/
theorem UserStakeHistory_assertion_foreign_value :
    (sessionCache.Get sampleClock.atCheck "7").2.1 = true ∧
    (sessionCache.Get sampleClock.atRead "7").1
      = some (.sessions [⟨7, "race", "7", "lap", 1⟩]) ∧
    (UserStakeHistory (sampleService (.ok [])) sessionCache sampleClock "7"
        (some 1) (some 10)).result = none ∧
    (UserStakeHistory (sampleService (.ok [])) sessionCache sampleClock "7"
        (some 1) (some 10)).calls = [Call.cacheGet "7", Call.cacheGet "7"] := by
  refine ⟨by decide, by decide, by decide, by decide⟩

/-- C21, amended. The type assertion of line 167 is unchecked and succeeds exactly on a
`[]storage.GameHistoryPayment`. For `page ≥ 1` and `pageSize ≥ 1`: every entry the run
itself adds holds a payment sequence, so on a cache written by the stake handlers alone the
asserted value is nil or a payment sequence; a payment sequence read back is paged; and a
value of any other dynamic type read back under the requested address, as another holder of
the shared cache can store it, makes the run panic. -/
theorem UserStakeHistory_assertion_unchecked (services : StackingContract) (cache : Cache)
    (clk : Clock) (address : String) (page pageSize : Int)
    (hpage : 1 ≤ page) (hsize : 1 ≤ pageSize) :
    (∀ k e, (populate services cache clk address).2.1 k = some e →
      cache k = some e ∨ ∃ ps, e.value = Dyn.payments ps) ∧
    (Reachable cache →
      (∀ k e, cache k = some e → ∃ ps, e.value = Dyn.payments ps) ∧
      (((populate services cache clk address).2.1.Get clk.atRead address).1 = none ∨
        ∃ ps, ((populate services cache clk address).2.1.Get clk.atRead address).1
          = some (.payments ps))) ∧
    (∀ ps, (populate services cache clk address).1 = none →
      (populate services cache clk address).2.1.view clk.atRead address
        = some (.payments ps) →
      (UserStakeHistory services cache clk address (some page) (some pageSize)).result
        = pageReply ps page pageSize) ∧
    (∀ v, (populate services cache clk address).1 = none →
      (populate services cache clk address).2.1.view clk.atRead address = some v →
      (∀ ps, v ≠ .payments ps) →
      (UserStakeHistory services cache clk address (some page) (some pageSize)).result
        = none) := by
  have hrun := UserStakeHistory_valid services cache clk address page pageSize hpage hsize
  refine ⟨?_, ?_, ?_, ?_⟩
  · intro k e hk
    cases hhit : (cache.Get clk.atCheck address).2.1 with
    | true =>
      rw [populate_hit _ _ _ _ hhit] at hk
      exact Or.inl hk
    | false =>
      cases hsvc : services.UserStakeHistory address with
      | error err =>
        rw [populate_miss_error _ _ _ _ err hhit hsvc] at hk
        exact Or.inl (Cache.Get_sub cache clk.atCheck address k e hk)
      | ok s =>
        rw [populate_miss_ok _ _ _ _ s hhit hsvc] at hk
        simp only at hk
        by_cases hkey : k = address
        · subst hkey
          rw [Cache.Set_same] at hk
          cases hk
          exact Or.inr ⟨sortHistory s, rfl⟩
        · rw [Cache.Set_other _ _ _ _ _ _ hkey] at hk
          exact Or.inl (Cache.Get_sub cache clk.atCheck address k e hk)
  · intro hreach
    have hinv := Reachable.onlyPayments cache hreach
    exact ⟨hinv,
      OnlyPayments.value _ _ _ (OnlyPayments.populate services cache clk address hinv)⟩
  · intro ps hnone hheld
    rw [hrun]
    rcases hpop : populate services cache clk address with ⟨err, cache1, calls⟩
    rw [hpop] at hnone hheld
    simp only at hnone hheld
    subst hnone
    exact readAndReply_held cache1 clk.atRead address page pageSize calls ps hheld
  · intro v hnone hheld hv
    rw [hrun]
    rcases hpop : populate services cache clk address with ⟨err, cache1, calls⟩
    rw [hpop] at hnone hheld
    simp only at hnone hheld
    subst hnone
    exact readAndReply_foreign cache1 clk.atRead address page pageSize calls v hheld hv

/-- C21, amended, at concrete runs that reach the assertion: on the cache left by a fetch of
the sample sequence a second run pages the payment sequence it reads back, and on the cache
holding sessions under "7" the run for "7" panics. -/
theorem UserStakeHistory_assertion_unchecked_witness :
    (UserStakeHistory (sampleService (.error "node down"))
        (UserStakeHistory (sampleService (.ok sampleHistory)) NewCache sampleClock
          sampleAddress (some 1) (some 10)).cache
        laterClock sampleAddress (some 1) (some 2)).result
      = pageReply (sortHistory sampleHistory) 1 2 ∧
    (UserStakeHistory (sampleService (.ok [])) sessionCache laterClock "7"
        (some 1) (some 2)).result = none :=
  ⟨(UserStakeHistory_assertion_unchecked (sampleService (.error "node down"))
      (UserStakeHistory (sampleService (.ok sampleHistory)) NewCache sampleClock
        sampleAddress (some 1) (some 10)).cache
      laterClock sampleAddress 1 2 (by decide) (by decide)).2.2.1
      (sortHistory sampleHistory) (by decide) (by decide),
    (UserStakeHistory_assertion_unchecked (sampleService (.ok [])) sessionCache laterClock
      "7" 1 2 (by decide) (by decide)).2.2.2
      (.sessions [⟨7, "race", "7", "lap", 1⟩]) (by decide) (by decide)
      (fun ps => by simp)⟩

/-- C22, the code at a failing input. An entry stored at time zero expires at 360000000000.
A run whose first `Get` is one nanosecond before that reports a hit; its second `Get`, at
the expiry, reports `found = false` and returns nil, and the type assertion panics. The same
happens on the miss branch when the read-back comes 6 minutes after the `Set`. -/
theorem UserStakeHistory_read_back_nil :
    expiryClock.atCheck ≤ expiryClock.atRead ∧
    ((sampleCache sampleHistory).Get expiryClock.atCheck sampleAddress).2.1 = true ∧
    ((sampleCache sampleHistory).Get expiryClock.atRead sampleAddress).2.1 = false ∧
    ((sampleCache sampleHistory).Get expiryClock.atRead sampleAddress).1 = none ∧
    (UserStakeHistory (sampleService (.ok sampleHistory)) (sampleCache sampleHistory)
        expiryClock sampleAddress (some 1) (some 10)).result = none ∧
    (UserStakeHistory (sampleService (.ok sampleHistory)) (sampleCache sampleHistory)
        expiryClock sampleAddress (some 1) (some 10)).calls
      = [Call.cacheGet sampleAddress, Call.cacheGet sampleAddress] ∧
    (UserStakeHistory (sampleService (.ok sampleHistory)) NewCache ⟨0, 0, 360000000000⟩
        sampleAddress (some 1) (some 10)).result = none ∧
    (UserStakeHistory (sampleService (.ok sampleHistory)) NewCache ⟨0, 0, 360000000000⟩
        sampleAddress (some 1) (some 10)).calls
      = [Call.cacheGet sampleAddress, Call.upstream sampleAddress,
          Call.cacheSet sampleAddress (.payments (sortHistory sampleHistory)) historyTTL,
          Call.cacheGet sampleAddress] := by
  refine ⟨by decide, by decide, by decide, by decide, by decide, by decide, by decide,
    by decide⟩

/-! ## Claims on empty answers, the frame and the payment link -/

/-- C23. A ledger query that succeeds with zero records populates the cache: after such a
run, read back before the entry expires, the reply is `NoData` and the cache holds the empty
sequence under the address; a second run before the expiry, for any page and page size and
whatever the ledger would answer, replies `NoData` from the cache with two `Get`s and no
ledger query. -/
theorem UserStakeHistory_empty_is_cached (services services2 : StackingContract)
    (cache : Cache) (clk1 clk2 : Clock) (address : String) (page1 pageSize1 : Int)
    (page2 pageSize2 : Int) (out1 out2 : Outcome)
    (hpage1 : 1 ≤ page1) (hsize1 : 1 ≤ pageSize1) (hpage2 : 1 ≤ page2) (hsize2 : 1 ≤ pageSize2)
    (hmiss : (cache.Get clk1.atCheck address).2.1 = false)
    (hok : services.UserStakeHistory address = .ok [])
    (hread1 : clk1.atRead < clk1.atSet + historyTTL)
    (hcheck2 : clk2.atCheck < clk1.atSet + historyTTL)
    (hread2 : clk2.atRead < clk1.atSet + historyTTL)
    (hout1 : out1 = UserStakeHistory services cache clk1 address (some page1)
      (some pageSize1))
    (hout2 : out2 = UserStakeHistory services2 out1.cache clk2 address (some page2)
      (some pageSize2)) :
    out1.result = some ⟨.NoData, StatusBadRequest,
      .ok "failed no game data for provided gid" (.sessions [])⟩ ∧
    Call.cacheSet address (.payments []) historyTTL ∈ out1.calls ∧
    out1.cache address = some ⟨.payments [], clk1.atSet + historyTTL⟩ ∧
    out2.result = some ⟨.NoData, StatusBadRequest,
      .ok "failed no game data for provided gid" (.sessions [])⟩ ∧
    out2.calls = [Call.cacheGet address, Call.cacheGet address] ∧
    out2.calls.countP Call.isUpstream = 0 := by
  have hsort : sortHistory [] = [] := rfl
  let stored := (cache.Get clk1.atCheck address).2.2.Set clk1.atSet address
    (.payments []) historyTTL
  have hview : ∀ t, t < clk1.atSet + historyTTL →
      stored.view t address = some (.payments []) :=
    fun t ht => Cache.view_Set _ _ _ _ _ _ ht
  have hfound : ∀ t, t < clk1.atSet + historyTTL → (stored.Get t address).2.1 = true := by
    intro t ht
    rw [Cache.Get_flag, hview t ht]
    rfl
  have hreply : ∀ p q : Int, pageReply [] p q = some ⟨.NoData, StatusBadRequest,
      .ok "failed no game data for provided gid" (.sessions [])⟩ := by
    intro p q
    simp [pageReply]
  have h1 : out1 = readAndReply stored clk1.atRead address page1 pageSize1
      [Call.cacheGet address, Call.upstream address,
        Call.cacheSet address (.payments []) historyTTL] := by
    rw [hout1, UserStakeHistory_miss_ok services cache clk1 address page1 pageSize1 []
      hpage1 hsize1 hmiss hok, hsort]
  have hc1 : out1.cache = stored := by
    rw [h1, readAndReply_cache]
    exact Cache.Get_found _ _ _ (hfound _ hread1)
  have h2 : out2 = readAndReply stored clk2.atRead address page2 pageSize2
      [Call.cacheGet address] := by
    rw [hout2, hc1]
    exact UserStakeHistory_hit services2 stored clk2 address page2 pageSize2 hpage2 hsize2
      (hfound _ hcheck2)
  have hcalls2 : out2.calls = [Call.cacheGet address, Call.cacheGet address] := by
    rw [h2, readAndReply_calls]
    rfl
  refine ⟨?_, ?_, ?_, ?_, hcalls2, ?_⟩
  · rw [h1, readAndReply_held _ _ _ _ _ _ _ (hview _ hread1)]
    exact hreply _ _
  · rw [h1, readAndReply_calls]
    simp
  · rw [hc1]
    exact Cache.Set_same _ _ _ _ _
  · rw [h2, readAndReply_held _ _ _ _ _ _ _ (hview _ hread2)]
    exact hreply _ _
  · rw [hcalls2]
    simp [Call.isUpstream]

/-- C23, at a concrete pair of runs: an empty cache, a ledger without records for the
address, and a second run one second later against a ledger that is down. -/
theorem UserStakeHistory_empty_is_cached_witness :
    ∃ out1 out2 : Outcome,
      out1 = UserStakeHistory (sampleService (.ok [])) NewCache sampleClock sampleAddress
        (some 1) (some 10) ∧
      out2 = UserStakeHistory (sampleService (.error "node down")) out1.cache laterClock
        sampleAddress (some 2) (some 5) ∧
      out1.result = some ⟨.NoData, StatusBadRequest,
        .ok "failed no game data for provided gid" (.sessions [])⟩ ∧
      Call.cacheSet sampleAddress (.payments []) historyTTL ∈ out1.calls ∧
      out1.cache sampleAddress = some ⟨.payments [], sampleClock.atSet + historyTTL⟩ ∧
      out2.result = some ⟨.NoData, StatusBadRequest,
        .ok "failed no game data for provided gid" (.sessions [])⟩ ∧
      out2.calls = [Call.cacheGet sampleAddress, Call.cacheGet sampleAddress] ∧
      out2.calls.countP Call.isUpstream = 0 :=
  ⟨_, _, rfl, rfl,
    UserStakeHistory_empty_is_cached (sampleService (.ok []))
      (sampleService (.error "node down")) NewCache sampleClock laterClock sampleAddress
      1 10 2 5 _ _ (by decide) (by decide) (by decide) (by decide) (by decide) rfl
      (by decide) (by decide) (by decide) rfl rfl⟩

/-- C24. On every path of `UserStakeHistory` the cache is touched only under the requested
address: every cache call of the run has the address as its key, and for every other key
`k` the entry, or its absence, is the same after the run as before. -/
theorem UserStakeHistory_frame (services : StackingContract) (cache : Cache) (clk : Clock)
    (address : String) (page pageSize : Option Int) (k : String) (hk : k ≠ address) :
    (UserStakeHistory services cache clk address page pageSize).cache k = cache k ∧
    (∀ c, c ∈ (UserStakeHistory services cache clk address page pageSize).calls →
      c ≠ Call.cacheGet k ∧ ∀ v ttl, c ≠ Call.cacheSet k v ttl) := by
  refine ⟨UserStakeHistory_cache_other services cache clk address page pageSize k hk, ?_⟩
  intro c hc
  have hne : address ≠ k := fun h => hk h.symm
  have hget : Call.cacheGet address ≠ Call.cacheGet k ∧
      ∀ v ttl, Call.cacheGet address ≠ Call.cacheSet k v ttl :=
    ⟨by simp [hne], fun v ttl => by simp⟩
  have hup : Call.upstream address ≠ Call.cacheGet k ∧
      ∀ v ttl, Call.upstream address ≠ Call.cacheSet k v ttl :=
    ⟨by simp, fun v ttl => by simp⟩
  have hset : ∀ w t, Call.cacheSet address w t ≠ Call.cacheGet k ∧
      ∀ v ttl, Call.cacheSet address w t ≠ Call.cacheSet k v ttl :=
    fun w t => ⟨by simp, fun v ttl => by simp [hne]⟩
  rcases UserStakeHistory_calls services cache clk address page pageSize with
    h | h | ⟨_, h⟩ | ⟨s, _, h⟩
  · rw [h] at hc
    exact absurd hc (List.not_mem_nil _)
  · rw [h] at hc
    simp only [List.mem_cons, List.mem_singleton, List.not_mem_nil, or_false] at hc
    rcases hc with rfl | rfl <;> exact hget
  · rw [h] at hc
    simp only [List.mem_cons, List.mem_singleton, List.not_mem_nil, or_false] at hc
    rcases hc with rfl | rfl
    · exact hget
    · exact hup
  · rw [h] at hc
    simp only [List.mem_cons, List.mem_singleton, List.not_mem_nil, or_false] at hc
    rcases hc with rfl | rfl | rfl | rfl
    · exact hget
    · exact hup
    · exact hset _ _
    · exact hget

/-- C24, at a concrete run: a fetch for the sample address leaves the entry of another
address as it was. -/
theorem UserStakeHistory_frame_witness :
    (UserStakeHistory (sampleService (.ok sampleHistory))
        (NewCache.Set 0 "0x02" (.payments []) historyTTL) sampleClock sampleAddress
        (some 1) (some 10)).cache "0x02"
      = (NewCache.Set 0 "0x02" (.payments []) historyTTL) "0x02" :=
  (UserStakeHistory_frame (sampleService (.ok sampleHistory))
    (NewCache.Set 0 "0x02" (.payments []) historyTTL) sampleClock sampleAddress
    (some 1) (some 10) "0x02" (by decide)).1

/-- C25. The result of `GeneratePaymentLink` does not depend on its `value` argument: for
any payment client, any client state and any two values the service makes the same client
calls, `GenPaymentAdress` and then, unless that failed, `GenQR("", "250")`, and returns the
same map and error and leaves the same client state; so `Stake` writes the same reply. -/
theorem GeneratePaymentLink_ignores_value {σ : Type} (cryptApi : Crypt σ) (s : σ)
    (v1 v2 : String) :
    stakeHistory.GeneratePaymentLink cryptApi v1 s
      = stakeHistory.GeneratePaymentLink cryptApi v2 s ∧
    ((stakeHistory.GeneratePaymentLink cryptApi v1 s).2.2 = [ApiCall.GenPaymentAdress] ∨
      ((stakeHistory.GeneratePaymentLink cryptApi v1 s).2.2
          = [ApiCall.GenPaymentAdress, ApiCall.GenQR "" "250"] ∧
        (stakeHistory.GeneratePaymentLink cryptApi v1 s).1
          = (cryptApi.GenQR "" "250" (cryptApi.GenPaymentAdress s).2).1)) ∧
    (∀ c first second, c ∈ (stakeHistory.GeneratePaymentLink cryptApi v1 s).2.2 →
      c = ApiCall.GenQR first second → first = "" ∧ second = "250") ∧
    Stake cryptApi s v1 = Stake cryptApi s v2 := by
  refine ⟨rfl, ?_, ?_, rfl⟩
  · unfold stakeHistory.GeneratePaymentLink
    cases h : (cryptApi.GenPaymentAdress s).1.2 with
    | some err => exact Or.inl (by simp [h])
    | none => exact Or.inr (by simp [h])
  · intro c first second hc hq
    subst hq
    unfold stakeHistory.GeneratePaymentLink at hc
    cases h : (cryptApi.GenPaymentAdress s).1.2 with
    | some err => simp [h] at hc
    | none =>
      simp [h] at hc
      exact ⟨hc.1, hc.2⟩

/-- C25, at a concrete client: two different values give the same calls and the same map. -/
theorem GeneratePaymentLink_ignores_value_witness :
    stakeHistory.GeneratePaymentLink sampleCrypt "10" ()
      = stakeHistory.GeneratePaymentLink sampleCrypt "999" () ∧
    stakeHistory.GeneratePaymentLink sampleCrypt "10" ()
      = ((some [("value", ""), ("size", "250")], none), (),
          [ApiCall.GenPaymentAdress, ApiCall.GenQR "" "250"]) :=
  ⟨(GeneratePaymentLink_ignores_value sampleCrypt () "10" "999").1, by decide⟩

end EasyGetCoin
